import Mathlib

/-
Shallow embedding of `src/asan/asan_allocator.cc` (the quarantining
sanitizer allocator) and proofs about it.

Modelling conventions:
* machine integers (`size_t`, `uintptr_t`) are `Nat`; the one place where
  wrap-around matters (`nmemb * size` in `__asan_calloc`) takes an explicit
  `% 2 ^ 64`;
* `CHECK(e)` aborts the process on failure, so every stateful operation
  returns `Except Unit _`, with `.error ()` standing for the abort;
* the intrusive doubly-linked lists (freelist per size class, quarantine
  ring, malloced list) are modelled as Lean lists of chunk base addresses,
  with the list head standing for the list/ring head pointer;
* memory is modelled by three maps: `store` (chunk base address to its
  header record), `shim` (the raw words written by the memalign record),
  and `shadow` (one byte per `2 ^ kShadowShift`-byte granule; the affine
  shadow offset of `MemToShadow` is folded into the granule index);
  fresh `mmap` memory is zero-backed, so an unwritten word reads 0;
* `mmap` hands out fresh page-aligned address space from a bump pointer
  `nextPage` and never fails (the allocator aborts on OOM, a path this
  model does not take).
-/

namespace AsanAlloc

/-- Modelled from the spec: `kWordSize` lives in the missing header
`asan_int.h`; the chunk header of §3 and the word-granularity copies of
§4.5 are for the 64-bit build, so a word is 8 bytes. -/
def kWordSize : Nat := 8

/-- Modelled from the spec: `kPageSize` lives in the missing header;
§4.2 deals in page-multiple mappings of the usual 4096-byte pages. -/
def kPageSize : Nat := 4096

/-- Modelled from the spec: `kShadowShift` lives in the missing header
`asan_mapping.h`; §3 fixes one shadow byte per `2 ^ k` application bytes
and the historical compression used `k = 3`. -/
def kShadowShift : Nat := 3

/-- Modelled from the spec: `kMinRedzone` lives in the missing header
`asan_int.h`.  The spec pins the derived redzone `kRedzone = 2 *
kMinRedzone` (source line 37): it must be a power of two, at least twice
the shadow granule (§4.4), and the five-word chunk header must lie
entirely within the leading redzone (§3), hence `kRedzone ≥ 64` on the
64-bit build; we take the least admissible value, `kMinRedzone = 32`. -/
def kMinRedzone : Nat := 32

/-- Source line 37: `kRedzone = kMinRedzone * 2`. -/
def kRedzone : Nat := kMinRedzone * 2

/-- Source line 38: `kMinAllocSize = kRedzone * 2`. -/
def kMinAllocSize : Nat := kRedzone * 2

/-- Source line 39: `kMinMmapSize = kPageSize * 128`. -/
def kMinMmapSize : Nat := kPageSize * 128

/-- Chunk state magic numbers (source lines 103-108). -/
def CHUNK_AVAILABLE : Nat := 0x573B5CE5

/-- See `CHUNK_AVAILABLE`. -/
def CHUNK_ALLOCATED : Nat := 0x32041A36

/-- See `CHUNK_AVAILABLE`. -/
def CHUNK_QUARANTINE : Nat := 0x1978BAE3

/-- Pseudo state marking a memalign shim record (source line 107). -/
def CHUNK_MEMALIGN : Nat := 0xDC68ECD8

/-- Source line 42: `IsAligned(a, alignment) = ((a & (alignment - 1)) == 0)`. -/
def IsAligned (a alignment : Nat) : Bool := a &&& (alignment - 1) == 0

/-- Source line 46. -/
def IsWordAligned (a : Nat) : Bool := IsAligned a kWordSize

/-- Source line 50: `IsPowerOfTwo(x) = ((x & (x - 1)) == 0)`.  Note that,
exactly as in the C source, this is `true` for `x = 0`. -/
def IsPowerOfTwo (x : Nat) : Bool := x &&& (x - 1) == 0

/-- `CHECK(b)`: abort the process unless `b` holds (asan's fatal check). -/
def CHECK (b : Bool) : Except Unit Unit := if b then .ok () else .error ()

/-- Fuel-bounded count of trailing zero bits; with fuel 64 this models
`__builtin_ctzl` on every value a `size_t` can take (its only uses are
guarded by `CHECK(IsPowerOfTwo _)`). -/
def ctzAux : Nat → Nat → Nat
  | 0, _ => 0
  | fuel + 1, n => if n % 2 == 1 then 0 else ctzAux fuel (n / 2) + 1

/-- See `ctzAux`. -/
def ctz (x : Nat) : Nat := ctzAux 64 x

/-- Source line 54: `Log2(x) = CHECK(IsPowerOfTwo(x)); __builtin_ctzl(x)`. -/
def Log2 (x : Nat) : Except Unit Nat := do
  CHECK (IsPowerOfTwo x)
  pure (ctz x)

/-- Source line 59. -/
def RoundUptoRedzone (size : Nat) : Nat :=
  ((size + kRedzone - 1) / kRedzone) * kRedzone

/-- Fuel-bounded bit length; with fuel 64 this models
`__WORDSIZE - __builtin_clzl(n)` for every nonzero `size_t` value. -/
def bitLenAux : Nat → Nat → Nat
  | 0, _ => 0
  | fuel + 1, n => if n == 0 then 0 else bitLenAux fuel (n / 2) + 1

/-- See `bitLenAux`. -/
def bitLen (n : Nat) : Nat := bitLenAux 64 n

/-- Source line 63: round up to a power of two, with the source's own
sanity CHECKs.  `1UL << up` is `2 ^ up` (the shift count stays below 64
whenever the function is reached with a `size_t` value). -/
def RoundUptoPowerOfTwo (size : Nat) : Except Unit Nat := do
  CHECK (size != 0)
  if IsPowerOfTwo size then pure size
  else do
    let up := bitLen size
    CHECK (decide (size < 2 ^ up))
    CHECK (decide (size > 2 ^ (up - 1)))
    pure (2 ^ up)

/-- The on-chunk header (source lines 110-116).  The two intrusive link
fields `next`/`prev` are represented by the Lean lists held in
`AllocState` instead of in-header pointers. -/
structure Chunk where
  chunk_state : Nat
  allocated_size : Nat
  used_size : Nat
  deriving DecidableEq

/-- The complete mutable state of the allocator: the fields of the global
`MallocInfo` (source lines 230-233) plus the memory, shadow and mmap bump
pointer, and the runtime flag `__asan_flag_quarantine_size` (`cap`). -/
structure AllocState where
  /-- chunk base address to header; `none` = no chunk header there. -/
  store : Nat → Option Chunk
  /-- `chunks[idx]`: freelist per size class, head first. -/
  freelist : Nat → List Nat
  /-- quarantine ring, most recently freed first (`quarantine_` is the
  head, `quarantine_->prev` the tail / least recently freed). -/
  quarantine : List Nat
  /-- `quarantine_size_`: byte counter of the quarantine. -/
  quarantine_size : Nat
  /-- `malloced_items_`: the live list of allocated chunks. -/
  malloced : List Nat
  /-- raw words written by the memalign shim records. -/
  shim : Nat → Option Nat
  /-- shadow byte per granule index `addr >>> kShadowShift`. -/
  shadow : Nat → Nat
  /-- next fresh page-aligned address `mmap` will return. -/
  nextPage : Nat
  /-- `__asan_flag_quarantine_size`, read-only configuration. -/
  cap : Nat

/-- Write one chunk header. -/
def setChunk (s : AllocState) (a : Nat) (c : Chunk) : AllocState :=
  { s with store := fun x => if x = a then some c else s.store x }

/-- Replace one size-class freelist. -/
def setFreelist (s : AllocState) (i : Nat) (l : List Nat) : AllocState :=
  { s with freelist := fun j => if j = i then l else s.freelist j }

/-- Read a chunk header out of memory; reading where no header lives is
modelled as the fatal path (in the C program it is a wild read whose
contents can never pass the state-magic CHECKs of the callers). -/
def getChunk (s : AllocState) (a : Nat) : Except Unit Chunk :=
  match s.store a with
  | none => .error ()
  | some c => .ok c

/-- Read one word of application memory: a chunk base yields the header's
first word (`chunk_state`), a shim address yields the shim word, anything
else reads 0 (fresh anonymous mappings are zero-backed). -/
def readWord (s : AllocState) (a : Nat) : Nat :=
  match s.store a with
  | some c => c.chunk_state
  | none => (s.shim a).getD 0

/-- Source line 72: `PoisonShadow(mem, size, poison)`; both ends must be
granule-aligned, then every shadow byte covering `[mem, mem+size)` is set
to `poison`. -/
def PoisonShadow (s : AllocState) (mem size poison : Nat) :
    Except Unit AllocState := do
  CHECK (IsAligned mem (1 <<< kShadowShift))
  CHECK (IsAligned (mem + size) (1 <<< kShadowShift))
  pure { s with
    shadow := fun g =>
      if mem >>> kShadowShift ≤ g ∧ g < (mem + size) >>> kShadowShift
      then poison else s.shadow g }

/-- Source line 80: `MmapNewPages` — page-multiple anonymous mapping,
whole region pre-poisoned with `0xFF` (`memset` value of `-1`). -/
def MmapNewPages (s : AllocState) (size : Nat) :
    Except Unit (Nat × AllocState) := do
  CHECK (size % kPageSize == 0)
  let res := s.nextPage
  let s := { s with nextPage := s.nextPage + size }
  let s ← PoisonShadow s res size 255
  pure (res, s)

/-- One iteration of the carving loop of `GetNewChunks` (source lines
194-200): the chunk at `mem + i * size` gets header
`{state = AVAILABLE, allocated_size = size}` (fresh memory is zeroed, so
`used_size` reads 0) and is pushed onto the head of `chunks[idx]`. -/
def carveOne (mem size idx : Nat) (s : AllocState) (i : Nat) : AllocState :=
  let m := mem + i * size
  let s := setChunk s m ⟨CHUNK_AVAILABLE, size, 0⟩
  setFreelist s idx (m :: s.freelist idx)

/-- The carving loop, `i` ascending from 0 to `n - 1`. -/
def carve (mem size idx : Nat) (s : AllocState) : Nat → AllocState
  | 0 => s
  | n + 1 => carveOne mem size idx (carve mem size idx s n) n

/-- Source line 186: `MallocInfo::GetNewChunks`. -/
def GetNewChunks (s : AllocState) (size : Nat) : Except Unit AllocState := do
  let idx ← Log2 size
  CHECK (s.freelist idx == [])
  CHECK (IsPowerOfTwo size)
  CHECK (IsPowerOfTwo kMinMmapSize)
  let mmap_size := max size kMinMmapSize
  CHECK (IsPowerOfTwo mmap_size)
  let (mem, s) ← MmapNewPages s mmap_size
  pure (carve mem size idx s (mmap_size / size))

/-- The draw of `MallocInfo::AllocateChunk` after the refill-on-miss
(source lines 126-138), factored out: take the freelist head (`CHECK(m)`
is the nil case), require it AVAILABLE, flip it to ALLOCATED and push it
onto the malloced list. -/
def AllocateChunkPop (s : AllocState) (idx : Nat) :
    Except Unit (Nat × AllocState) :=
  match s.freelist idx with
  | [] => .error ()                     -- CHECK(m)
  | m :: rest => do
    let s := setFreelist s idx rest
    let c ← getChunk s m
    CHECK (c.chunk_state == CHUNK_AVAILABLE)
    let s := setChunk s m { c with chunk_state := CHUNK_ALLOCATED }
    let s := { s with malloced := m :: s.malloced }
    pure (m, s)

/-- Source line 120: `MallocInfo::AllocateChunk` — draw from the size
class, refilling from the page provider on miss. -/
def AllocateChunk (s : AllocState) (size : Nat) :
    Except Unit (Nat × AllocState) := do
  CHECK (IsPowerOfTwo size)
  let idx ← Log2 size
  let s ← if s.freelist idx = [] then GetNewChunks s size else pure s
  AllocateChunkPop s idx

/-- Source line 204: `MallocInfo::pop` — unlink the ring tail (the least
recently freed chunk), subtract its size from the counter, flip it to
AVAILABLE and push it onto its size-class freelist. -/
def pop (s : AllocState) : Except Unit AllocState := do
  CHECK (!s.quarantine.isEmpty)         -- CHECK(quarantine_)
  CHECK (decide (0 < s.quarantine_size))
  let m := s.quarantine.getLastD 0      -- m = quarantine_->prev
  let c ← getChunk s m
  let s := { s with quarantine := s.quarantine.dropLast }
  CHECK (decide (c.allocated_size ≤ s.quarantine_size))
  let s := { s with quarantine_size := s.quarantine_size - c.allocated_size }
  CHECK (c.chunk_state == CHUNK_QUARANTINE)
  let s := setChunk s m { c with chunk_state := CHUNK_AVAILABLE }
  let idx ← Log2 c.allocated_size
  pure (setFreelist s idx (m :: s.freelist idx))

/-- The `while` loop of `TakeChunkBack` (source lines 174-177), with the
loop condition `quarantine_size_ && (quarantine_size_ > cap)`.  Each
successful `pop` strictly shortens the quarantine list, so the explicit
fuel never runs out when called with `quarantine.length + 1`
(`popLoop_irrel` below proves the fuel choice irrelevant). -/
def popLoop : Nat → AllocState → Except Unit AllocState
  | 0, _ => .error ()
  | fuel + 1, s =>
    if 0 < s.quarantine_size ∧ s.cap < s.quarantine_size then do
      let s ← pop s
      popLoop fuel s
    else pure s

/-- Source line 141: `MallocInfo::TakeChunkBack` — unlink from the
malloced list, insert at the quarantine head, bump the counter, flip the
state to QUARANTINE, then trim the quarantine under the cap. -/
def TakeChunkBack (s : AllocState) (m : Nat) : Except Unit AllocState := do
  CHECK (decide (m ≠ 0))                -- CHECK(m)
  let c ← getChunk s m
  CHECK (c.chunk_state == CHUNK_ALLOCATED)
  CHECK (IsPowerOfTwo c.allocated_size)
  CHECK (decide (0 < s.cap))            -- CHECK(__asan_flag_quarantine_size > 0)
  let s := { s with malloced := s.malloced.erase m }
  let s := { s with quarantine := m :: s.quarantine }
  let s := { s with quarantine_size := s.quarantine_size + c.allocated_size }
  let s := setChunk s m { c with chunk_state := CHUNK_QUARANTINE }
  popLoop (s.quarantine.length + 1) s

/-- Source line 180: `MallocInfo::Deallocate`. -/
def MallocInfoDeallocate (s : AllocState) (m : Nat) : Except Unit AllocState := do
  CHECK (decide (m ≠ 0))
  let c ← getChunk s m
  CHECK (c.chunk_state == CHUNK_ALLOCATED)
  TakeChunkBack s m

/-- The size computation of `Allocate` (source lines 242-250), factored
out verbatim: pad the request to a redzone multiple, add one trailing
redzone, add alignment slack when the alignment exceeds the redzone, and
round the total up to a power of two. -/
def ComputeSizeToAllocate (alignment size : Nat) : Except Unit Nat := do
  let rounded_size := RoundUptoRedzone size
  let needed_size := rounded_size + kRedzone
  let needed_size := if kRedzone < alignment then needed_size + alignment
                     else needed_size
  CHECK (needed_size % kRedzone == 0)
  let size_to_allocate ← RoundUptoPowerOfTwo needed_size
  CHECK (decide (kMinAllocSize ≤ size_to_allocate))
  CHECK (size_to_allocate % kRedzone == 0)
  pure size_to_allocate

/-- Source line 238: `Allocate(alignment, size)`.  Returns `none` for the
C `NULL` result.  The returned pointer is `chunk + kRedzone`, shifted up
to the requested alignment (writing the two-word memalign record at
`addr - kRedzone`) when needed, and the payload shadow is wiped clean. -/
def Allocate (s : AllocState) (alignment size : Nat) :
    Except Unit (Option Nat × AllocState) := do
  if size = 0 then pure (none, s)
  else do
    CHECK (IsPowerOfTwo alignment)
    let rounded_size := RoundUptoRedzone size
    let size_to_allocate ← ComputeSizeToAllocate alignment size
    let (m, s) ← AllocateChunk s size_to_allocate
    CHECK (decide (m ≠ 0))              -- CHECK(m)
    let c ← getChunk s m
    CHECK (c.allocated_size == size_to_allocate)
    CHECK (c.chunk_state == CHUNK_ALLOCATED)
    let s := setChunk s m { c with used_size := size }
    let addr := m + kRedzone
    let (addr, s) ←
      if kRedzone < alignment ∧ (addr &&& (alignment - 1)) ≠ 0 then do
        let alignment_log ← Log2 alignment
        let addr := ((addr + alignment - 1) >>> alignment_log) <<< alignment_log
        CHECK (IsAligned addr alignment)
        let w := addr - kRedzone        -- p[0] = CHUNK_MEMALIGN; p[1] = m
        let s := { s with
          shim := fun a =>
            if a = w then some CHUNK_MEMALIGN
            else if a = w + kWordSize then some m
            else s.shim a }
        pure (addr, s)
      else pure (addr, s)
    let s ← PoisonShadow s addr rounded_size 0
    pure (some addr, s)

/-- Source line 273: `asan_clear_mem` — zero-fills words of user payload;
only its alignment CHECK touches the modelled state (user payload bytes
are not part of the model). -/
def asan_clear_mem (mem : Nat) : Except Unit Unit := do
  CHECK (IsWordAligned mem)

/-- Source line 280: `asan_copy_mem` — word copies between user payloads;
only the alignment CHECKs touch the modelled state. -/
def asan_copy_mem (dst src : Nat) : Except Unit Unit := do
  CHECK (IsWordAligned dst)
  CHECK (IsWordAligned src)

/-- Source line 288: `PtrToChunk` — read the word at `ptr - kRedzone`; if
it is the MEMALIGN tag the next word is the chunk address, otherwise
`ptr - kRedzone` is itself the chunk. -/
def PtrToChunk (s : AllocState) (ptr : Nat) : Nat :=
  let m := ptr - kRedzone
  if readWord s m == CHUNK_MEMALIGN then readWord s (m + kWordSize) else m

/-- Modelled from the spec, NOT from the source, for refinement comparison
with `PtrToChunk`: the spec claims the resolution inspects "the word
two-words-before the user pointer" and, on the MEMALIGN tag, takes "the
next word" as the chunk base. -/
def PtrToChunk_specModel (s : AllocState) (ptr : Nat) : Nat :=
  if readWord s (ptr - 2 * kWordSize) == CHUNK_MEMALIGN
  then readWord s (ptr - kWordSize) else ptr - kRedzone

/-- Source line 296: `Deallocate(ptr)` — null is a no-op; otherwise
resolve the chunk, require it ALLOCATED, re-poison the rounded payload
with `0xFF` and hand the chunk to the quarantine. -/
def Deallocate (s : AllocState) (ptr : Option Nat) : Except Unit AllocState := do
  match ptr with
  | none => pure s
  | some ptr => do
    let m := PtrToChunk s ptr
    let c ← getChunk s m
    CHECK (c.chunk_state == CHUNK_ALLOCATED)
    let rounded_size := RoundUptoRedzone c.used_size
    let s ← PoisonShadow s ptr rounded_size 255
    MallocInfoDeallocate s m

/-- Source line 305: `Reallocate(ptr, size)`.  Note the `size == 0`
branch returns `NULL` without touching the old pointer, and the fresh
allocation is drawn with alignment 0.  The statistics counters are not
part of the model. -/
def Reallocate (s : AllocState) (ptr : Option Nat) (size : Nat) :
    Except Unit (Option Nat × AllocState) := do
  match ptr with
  | none => Allocate s 0 size
  | some ptr => do
    if size = 0 then pure (none, s)
    else do
      let m := PtrToChunk s ptr
      let c ← getChunk s m
      CHECK (c.chunk_state == CHUNK_ALLOCATED)
      let (new_ptr, s) ← Allocate s 0 size
      asan_copy_mem (new_ptr.getD 0) ptr
      let s ← Deallocate s (some ptr)
      pure (new_ptr, s)

/-- Source line 327. -/
def asan_memalign (s : AllocState) (alignment size : Nat) :
    Except Unit (Option Nat × AllocState) :=
  Allocate s alignment size

/-- Source line 331. -/
def asan_free (s : AllocState) (ptr : Option Nat) : Except Unit AllocState :=
  Deallocate s ptr

/-- Source line 335. -/
def asan_malloc (s : AllocState) (size : Nat) :
    Except Unit (Option Nat × AllocState) :=
  Allocate s 0 size

/-- Source line 339: `__asan_calloc(nmemb, size)` — the byte count is the
`size_t` product, i.e. the true product reduced `% 2 ^ 64`; no overflow
check is performed before allocating and zero-filling. -/
def asan_calloc (s : AllocState) (nmemb size : Nat) :
    Except Unit (Option Nat × AllocState) := do
  let total := (nmemb * size) % 2 ^ 64
  let (res, s) ← Allocate s 0 total
  asan_clear_mem (res.getD 0)
  pure (res, s)

/-- Source line 344. -/
def asan_realloc (s : AllocState) (ptr : Option Nat) (size : Nat) :
    Except Unit (Option Nat × AllocState) :=
  Reallocate s ptr size

/-- Source line 348. -/
def asan_valloc (s : AllocState) (size : Nat) :
    Except Unit (Option Nat × AllocState) :=
  Allocate s kPageSize size

/-- A pristine allocator: nothing mapped, empty lists, clean shadow, the
mmap bump pointer at some page-aligned base, and the configured
quarantine cap. -/
def initState (cap : Nat) : AllocState :=
  { store := fun _ => none
    freelist := fun _ => []
    quarantine := []
    quarantine_size := 0
    malloced := []
    shim := fun _ => none
    shadow := fun _ => 0
    nextPage := 2 ^ 20
    cap := cap }

end AsanAlloc

namespace AsanAlloc

/- ### Plumbing for the `Except Unit` embedding -/

theorem bind_ok {α β : Type} {x : Except Unit α} {f : α → Except Unit β} {b : β} :
    (x >>= f) = .ok b ↔ ∃ a, x = .ok a ∧ f a = .ok b := by
  cases x <;> simp [Bind.bind, Except.bind]

theorem map_ok {α β : Type} {x : Except Unit α} {f : α → β} {b : β} :
    (f <$> x) = .ok b ↔ ∃ a, x = .ok a ∧ f a = b := by
  cases x <;> simp [Functor.map, Except.map]

theorem CHECK_ok {b : Bool} {u : Unit} : CHECK b = .ok u ↔ b = true := by
  cases b <;> simp [CHECK]

theorem pure_ok {α : Type} {a b : α} : (pure a : Except Unit α) = .ok b ↔ a = b := by
  constructor
  · intro h
    simpa [pure, Except.pure] using h
  · intro h
    simp [pure, Except.pure, h]

theorem getChunk_ok {s : AllocState} {a : Nat} {c : Chunk} :
    getChunk s a = .ok c ↔ s.store a = some c := by
  unfold getChunk
  cases h : s.store a <;> simp

/- ### Bit-level facts about the source's arithmetic helpers -/

theorem and_two_pow_sub_one (x t : Nat) : x &&& (2 ^ t - 1) = x % 2 ^ t := by
  apply Nat.eq_of_testBit_eq
  intro i
  simp [Nat.testBit_land, Nat.testBit_two_pow_sub_one, Nat.testBit_mod_two_pow,
    Bool.and_comm]

theorem IsAligned_two_pow {x t : Nat} : IsAligned x (2 ^ t) = true ↔ x % 2 ^ t = 0 := by
  simp [IsAligned, and_two_pow_sub_one]

theorem isPowerOfTwo_two_pow (t : Nat) : IsPowerOfTwo (2 ^ t) = true := by
  have h : (2 : Nat) ^ t &&& (2 ^ t - 1) = 2 ^ t % 2 ^ t := and_two_pow_sub_one _ _
  simp [IsPowerOfTwo, h]

theorem bitLenAux_zero (fuel : Nat) : bitLenAux fuel 0 = 0 := by
  cases fuel <;> simp [bitLenAux]

theorem bitLenAux_spec : ∀ fuel n, n < 2 ^ fuel →
    n < 2 ^ bitLenAux fuel n ∧ (n ≠ 0 → bitLenAux fuel n ≠ 0 ∧ 2 ^ (bitLenAux fuel n - 1) ≤ n) := by
  intro fuel
  induction fuel with
  | zero =>
    intro n hn
    simp [bitLenAux]
    omega
  | succ fuel ih =>
    intro n hn
    by_cases h0 : n = 0
    · simp [bitLenAux, h0]
    · have hdiv : n / 2 < 2 ^ fuel := by
        have h2 : 2 ^ (fuel + 1) = 2 ^ fuel * 2 := by ring
        omega
      obtain ⟨ih1, ih2⟩ := ih (n / 2) hdiv
      have hb : bitLenAux (fuel + 1) n = bitLenAux fuel (n / 2) + 1 := by
        simp [bitLenAux, h0]
      by_cases hd0 : n / 2 = 0
      · have hn1 : n = 1 := by omega
        subst hn1
        rw [hb, hd0, bitLenAux_zero]
        simp
      · obtain ⟨hne, hlow⟩ := ih2 hd0
        rw [hb]
        have h2 : 2 ^ (bitLenAux fuel (n / 2) + 1) = 2 ^ bitLenAux fuel (n / 2) * 2 := by
          ring
        refine ⟨by omega, fun _ => ⟨by omega, ?_⟩⟩
        have hk : bitLenAux fuel (n / 2) + 1 - 1 = (bitLenAux fuel (n / 2) - 1) + 1 := by
          omega
        rw [hk, pow_succ]
        omega

theorem bitLen_spec {n : Nat} (h0 : n ≠ 0) (h64 : n < 2 ^ 64) :
    bitLen n ≠ 0 ∧ 2 ^ (bitLen n - 1) ≤ n ∧ n < 2 ^ bitLen n := by
  obtain ⟨h1, h2⟩ := bitLenAux_spec 64 n h64
  exact ⟨(h2 h0).1, (h2 h0).2, h1⟩

theorem eq_two_pow_of_isPowerOfTwo {n : Nat} (h64 : n < 2 ^ 64) (hn : n ≠ 0)
    (h : IsPowerOfTwo n = true) : n = 2 ^ (bitLen n - 1) := by
  by_contra hne
  obtain ⟨hb0, hlo, hhi⟩ := bitLen_spec hn h64
  have hsucc : bitLen n - 1 + 1 = bitLen n := by omega
  have hp1 : (2 : Nat) ^ bitLen n = 2 ^ (bitLen n - 1) * 2 := by
    conv_lhs => rw [← hsucc]
    rw [pow_succ]
  have hpk : 0 < 2 ^ (bitLen n - 1) := Nat.pos_pow_of_pos _ (by omega)
  have hgt : 2 ^ (bitLen n - 1) + 1 ≤ n := by
    rcases Nat.lt_or_ge (2 ^ (bitLen n - 1)) n with hlt | hge
    · omega
    · exact absurd (by omega : n = 2 ^ (bitLen n - 1)) hne
  have hdivn : n / 2 ^ (bitLen n - 1) = 1 := by
    have hle : 1 ≤ n / 2 ^ (bitLen n - 1) := (Nat.le_div_iff_mul_le hpk).2 (by omega)
    have hlt : n / 2 ^ (bitLen n - 1) < 2 := (Nat.div_lt_iff_lt_mul hpk).2 (by omega)
    omega
  have hdivn1 : (n - 1) / 2 ^ (bitLen n - 1) = 1 := by
    have hle : 1 ≤ (n - 1) / 2 ^ (bitLen n - 1) :=
      (Nat.le_div_iff_mul_le hpk).2 (by omega)
    have hlt : (n - 1) / 2 ^ (bitLen n - 1) < 2 :=
      (Nat.div_lt_iff_lt_mul hpk).2 (by omega)
    omega
  have htn : n.testBit (bitLen n - 1) = true := by
    simp [Nat.testBit_to_div_mod, hdivn]
  have htn1 : (n - 1).testBit (bitLen n - 1) = true := by
    simp [Nat.testBit_to_div_mod, hdivn1]
  have hand : n &&& (n - 1) = 0 := by
    have := of_decide_eq_true (by simpa [IsPowerOfTwo] using h)
    simpa using this
  have hbit : (n &&& (n - 1)).testBit (bitLen n - 1) = true := by
    rw [Nat.testBit_land, htn, htn1]
    rfl
  rw [hand, Nat.zero_testBit] at hbit
  exact Bool.false_ne_true hbit

theorem exists_pow_of_isPowerOfTwo {n : Nat} (h64 : n < 2 ^ 64) (hn : n ≠ 0)
    (h : IsPowerOfTwo n = true) : ∃ t, t < 64 ∧ n = 2 ^ t := by
  refine ⟨bitLen n - 1, ?_, eq_two_pow_of_isPowerOfTwo h64 hn h⟩
  by_contra hge
  have : (2 : Nat) ^ 64 ≤ 2 ^ (bitLen n - 1) :=
    Nat.pow_le_pow_right (by omega) (by omega)
  have := eq_two_pow_of_isPowerOfTwo h64 hn h
  omega

theorem ctzAux_two_pow : ∀ fuel t, t < fuel → ctzAux fuel (2 ^ t) = t := by
  intro fuel
  induction fuel with
  | zero => omega
  | succ fuel ih =>
    intro t ht
    cases t with
    | zero => simp [ctzAux]
    | succ t =>
      have hmod : (2 : Nat) ^ (t + 1) % 2 = 0 := by
        simp [pow_succ, Nat.mul_mod_left]
      have hdiv : (2 : Nat) ^ (t + 1) / 2 = 2 ^ t := by
        simp [pow_succ]
      simp only [ctzAux, hmod, hdiv]
      simp [ih t (by omega)]

theorem ctz_two_pow {t : Nat} (ht : t < 64) : ctz (2 ^ t) = t :=
  ctzAux_two_pow 64 t ht

theorem Log2_two_pow {t : Nat} (ht : t < 64) : Log2 (2 ^ t) = .ok t := by
  simp [Log2, CHECK, isPowerOfTwo_two_pow, bind_ok, pure_ok, ctz_two_pow ht,
    Bind.bind, Except.bind, pure, Except.pure]

/- ### Arithmetic of the rounding helpers -/

theorem RoundUptoRedzone_spec (size : Nat) :
    size ≤ RoundUptoRedzone size ∧ RoundUptoRedzone size % kRedzone = 0 ∧
    RoundUptoRedzone size < size + kRedzone ∧
    (0 < size → kRedzone ≤ RoundUptoRedzone size) := by
  unfold RoundUptoRedzone kRedzone kMinRedzone
  have h := Nat.div_add_mod (size + 64 - 1) 64
  have hlt : (size + 64 - 1) % 64 < 64 := Nat.mod_lt _ (by omega)
  omega

theorem RoundUptoPowerOfTwo_ok {size v : Nat}
    (h : RoundUptoPowerOfTwo size = .ok v) :
    IsPowerOfTwo v = true ∧ size ≤ v ∧ size ≠ 0 := by
  unfold RoundUptoPowerOfTwo at h
  simp only [bind_ok, CHECK_ok] at h
  obtain ⟨_, hch, h⟩ := h
  split at h
  · next hpow =>
    rw [pure_ok] at h
    subst h
    exact ⟨hpow, le_rfl, by simpa using hch⟩
  · next hpow =>
    simp only [bind_ok, CHECK_ok, pure_ok, decide_eq_true_eq] at h
    obtain ⟨_, hlt, _, _, hv⟩ := h
    subst hv
    exact ⟨isPowerOfTwo_two_pow _, by omega, by simpa using hch⟩

theorem RoundUptoPowerOfTwo_total {size : Nat} (h0 : 0 < size) (h64 : size < 2 ^ 64) :
    ∃ v, RoundUptoPowerOfTwo size = .ok v ∧ IsPowerOfTwo v = true ∧
      size ≤ v ∧ v < 2 * size := by
  unfold RoundUptoPowerOfTwo
  by_cases hpow : IsPowerOfTwo size = true
  · refine ⟨size, ?_, hpow, le_rfl, by omega⟩
    simp [bind_ok, CHECK_ok, pure_ok, map_ok, hpow, h0, Nat.pos_iff_ne_zero.mp h0]
  · obtain ⟨hb0, hlo, hhi⟩ := bitLen_spec (by omega) h64
    have hne : size ≠ 2 ^ (bitLen size - 1) := by
      intro he
      exact hpow (he ▸ isPowerOfTwo_two_pow _)
    have hstrict : 2 ^ (bitLen size - 1) < size := by omega
    have hp1 : (2 : Nat) ^ bitLen size = 2 ^ (bitLen size - 1) * 2 := by
      rw [← pow_succ]
      congr 1
      omega
    refine ⟨2 ^ bitLen size, ?_, isPowerOfTwo_two_pow _, by omega, by omega⟩
    simp [bind_ok, CHECK_ok, pure_ok, map_ok, hpow, Nat.pos_iff_ne_zero.mp h0, hhi,
      hstrict]

end AsanAlloc

namespace AsanAlloc

theorem kRedzone_eq : kRedzone = 64 := rfl

theorem kMinAllocSize_eq : kMinAllocSize = 128 := rfl

theorem kWordSize_eq : kWordSize = 8 := rfl

theorem kPageSize_eq : kPageSize = 4096 := rfl

theorem kMinMmapSize_eq : kMinMmapSize = 524288 := rfl

theorem mod_eq_zero_of_dvd {a b : Nat} (h : a ∣ b) : b % a = 0 := by
  rcases h with ⟨k, rfl⟩
  exact Nat.mul_mod_right a k

theorem kRedzone_dvd_of_pow_gt {t : Nat} (h : kRedzone < 2 ^ t) : kRedzone ∣ 2 ^ t := by
  have h6 : (2 : Nat) ^ 6 < 2 ^ t := by
    rw [kRedzone_eq] at h
    norm_num at h ⊢
    omega
  have ht : 6 < t := (Nat.pow_lt_pow_iff_right (by omega)).1 h6
  have : (2 : Nat) ^ 6 ∣ 2 ^ t := pow_dvd_pow 2 (by omega)
  simpa [kRedzone_eq] using this

theorem ComputeSizeToAllocate_core {alignment size needed : Nat}
    (hneed : (if kRedzone < alignment
        then RoundUptoRedzone size + kRedzone + alignment
        else RoundUptoRedzone size + kRedzone) = needed)
    (hmod : needed % kRedzone = 0) (hlo : kMinAllocSize ≤ needed)
    (hhi : needed < 2 ^ 63) :
    ∃ v, ComputeSizeToAllocate alignment size = .ok v ∧ IsPowerOfTwo v = true ∧
      needed ≤ v ∧ v < 2 * needed ∧ kMinAllocSize ≤ v ∧ v % kRedzone = 0 := by
  have h63 : (2 : Nat) ^ 63 = 9223372036854775808 := by norm_num
  have h64 : (2 : Nat) ^ 64 = 18446744073709551616 := by norm_num
  obtain ⟨v, hv, hvpow, hvle, hvlt⟩ :=
    @RoundUptoPowerOfTwo_total needed
      (by rw [kMinAllocSize_eq] at hlo; omega) (by omega)
  have hv64 : v < 2 ^ 64 := by omega
  have hvne : v ≠ 0 := by
    rw [kMinAllocSize_eq] at hlo
    omega
  have hvmod : v % kRedzone = 0 := by
    obtain ⟨t, ht64, hteq⟩ := exists_pow_of_isPowerOfTwo hv64 hvne hvpow
    refine mod_eq_zero_of_dvd (hteq ▸ kRedzone_dvd_of_pow_gt ?_)
    rw [← hteq, kRedzone_eq]
    rw [kMinAllocSize_eq] at hlo
    omega
  refine ⟨v, ?_, hvpow, hvle, hvlt, le_trans hlo hvle, hvmod⟩
  simp only [ComputeSizeToAllocate, bind_ok, CHECK_ok, pure_ok, map_ok, hneed]
  refine ⟨(), by simp [hmod], v, hv, (), by simp [le_trans hlo hvle], (),
    by simp [hvmod], rfl⟩

/-- Totality and characterization of the padded-size computation: for any
serveable request the computation succeeds with the least power of two
that is at least `rounded_size + kRedzone (+ alignment)`, and that value
is at least `kMinAllocSize` and redzone-divisible. -/
theorem ComputeSizeToAllocate_spec {alignment size : Nat} (h0 : 0 < size)
    (hs : size < 2 ^ 61) (hpow : IsPowerOfTwo alignment = true)
    (ha : alignment < 2 ^ 61) :
    ∃ v, ComputeSizeToAllocate alignment size = .ok v ∧
      IsPowerOfTwo v = true ∧
      RoundUptoRedzone size + kRedzone +
        (if kRedzone < alignment then alignment else 0) ≤ v ∧
      v < 2 * (RoundUptoRedzone size + kRedzone +
        (if kRedzone < alignment then alignment else 0)) ∧
      kMinAllocSize ≤ v ∧ v % kRedzone = 0 := by
  obtain ⟨hr1, hr2, hr3, hr4⟩ := RoundUptoRedzone_spec size
  have hrz := hr4 h0
  have h61 : (2 : Nat) ^ 61 = 2305843009213693952 := by norm_num
  have h63 : (2 : Nat) ^ 63 = 9223372036854775808 := by norm_num
  by_cases hca : kRedzone < alignment
  · have hane : alignment ≠ 0 := by
      rw [kRedzone_eq] at hca
      omega
    obtain ⟨t, ht64, hteq⟩ := exists_pow_of_isPowerOfTwo (by omega) hane hpow
    have halmod : alignment % kRedzone = 0 :=
      mod_eq_zero_of_dvd (hteq ▸ kRedzone_dvd_of_pow_gt (hteq ▸ hca))
    obtain ⟨v, hv, h1, h2, h3, h4, h5⟩ :=
      @ComputeSizeToAllocate_core alignment size
        (RoundUptoRedzone size + kRedzone + alignment)
        (by simp [hca])
        (by rw [kRedzone_eq] at *; omega)
        (by rw [kMinAllocSize_eq, kRedzone_eq] at *; omega)
        (by rw [kRedzone_eq] at *; omega)
    exact ⟨v, hv, h1, by simp only [if_pos hca]; omega,
      by simp only [if_pos hca]; omega, h4, h5⟩
  · obtain ⟨v, hv, h1, h2, h3, h4, h5⟩ :=
      @ComputeSizeToAllocate_core alignment size
        (RoundUptoRedzone size + kRedzone)
        (by simp [hca])
        (by rw [kRedzone_eq] at *; omega)
        (by rw [kMinAllocSize_eq, kRedzone_eq] at *; omega)
        (by rw [kRedzone_eq] at *; omega)
    exact ⟨v, hv, h1, by simp only [if_neg hca]; omega,
      by simp only [if_neg hca]; omega, h4, h5⟩

/-- What a successful run of the padded-size computation guarantees. -/
theorem ComputeSizeToAllocate_ok {alignment size v : Nat}
    (h : ComputeSizeToAllocate alignment size = .ok v) :
    IsPowerOfTwo v = true ∧
    RoundUptoRedzone size + kRedzone +
      (if kRedzone < alignment then alignment else 0) ≤ v ∧
    kMinAllocSize ≤ v ∧ v % kRedzone = 0 := by
  unfold ComputeSizeToAllocate at h
  simp only [bind_ok, CHECK_ok, pure_ok, map_ok, decide_eq_true_eq, beq_iff_eq] at h
  obtain ⟨_, hmod, v', hrupt, _, hmin, _, hmod2, hv⟩ := h
  subst hv
  obtain ⟨hp, hle, _⟩ := RoundUptoPowerOfTwo_ok hrupt
  by_cases hca : kRedzone < alignment
  · rw [if_pos hca] at hle
    rw [if_pos hca]
    exact ⟨hp, by omega, hmin, hmod2⟩
  · rw [if_neg hca] at hle
    rw [if_neg hca]
    exact ⟨hp, by omega, hmin, hmod2⟩

end AsanAlloc

namespace AsanAlloc

/- ### The heap well-formedness invariant -/

/-- The allocated size recorded at address `a` (0 when no chunk is there). -/
def chunkSizeAt (s : AllocState) (a : Nat) : Nat :=
  match s.store a with
  | some c => c.allocated_size
  | none => 0

/-- Sum of `allocated_size` over the quarantine members. -/
def qsum (s : AllocState) : Nat := (s.quarantine.map (chunkSizeAt s)).sum

/-- Well-formedness of the heap state, except for the quarantine cap
bound (which is transiently broken inside the free path). -/
structure QInv (s : AllocState) : Prop where
  qsum_eq : s.quarantine_size = qsum s
  dom_end : ∀ a c, s.store a = some c → a + c.allocated_size ≤ s.nextPage
  size_pos : ∀ a c, s.store a = some c → 0 < c.allocated_size
  disj : ∀ a b ca cb, s.store a = some ca → s.store b = some cb → a < b →
    a + ca.allocated_size ≤ b
  qstate : ∀ a ∈ s.quarantine,
    ∃ c, s.store a = some c ∧ c.chunk_state = CHUNK_QUARANTINE
  qnodup : s.quarantine.Nodup
  flmem : ∀ i, ∀ a ∈ s.freelist i, (s.store a).isSome = true
  aligned : ∀ a c, s.store a = some c → a % kRedzone = 0
  page_al : s.nextPage % kPageSize = 0

/-- Full invariant holding between public operations: well-formedness plus
the quarantine counter staying under the configured cap. -/
def Inv (s : AllocState) : Prop := QInv s ∧ s.quarantine_size ≤ s.cap

theorem QInv_init (cap : Nat) : QInv (initState cap) := by
  refine ⟨?_, ?_, ?_, ?_, ?_, ?_, ?_, ?_, ?_⟩
  · simp [initState, qsum]
  · intro a c h
    simp [initState] at h
  · intro a c h
    simp [initState] at h
  · intro a b ca cb h
    simp [initState] at h
  · intro a h
    simp [initState] at h
  · simp [initState]
  · intro i a h
    simp [initState] at h
  · intro a c h
    simp [initState] at h
  · show (2 : Nat) ^ 20 % kPageSize = 0
    norm_num [kPageSize]

theorem Inv_init (cap : Nat) : Inv (initState cap) :=
  ⟨QInv_init cap, by simp [initState]⟩

theorem chunkSizeAt_congr {s s' : AllocState} (hst : s'.store = s.store) :
    chunkSizeAt s' = chunkSizeAt s := by
  funext a
  simp [chunkSizeAt, hst]

/-- Transport well-formedness to a state that agrees on the store, the
quarantine and the counter, only shrinks the freelists, and only grows
the bump pointer (staying page-aligned). -/
theorem QInv.transfer {s s' : AllocState} (h : QInv s)
    (hst : s'.store = s.store) (hq : s'.quarantine = s.quarantine)
    (hqs : s'.quarantine_size = s.quarantine_size)
    (hfl : ∀ j a, a ∈ s'.freelist j → a ∈ s.freelist j)
    (hnp : s.nextPage ≤ s'.nextPage) (hpa : s'.nextPage % kPageSize = 0) :
    QInv s' := by
  refine ⟨?_, ?_, ?_, ?_, ?_, ?_, ?_, ?_, ?_⟩
  · rw [hqs, h.qsum_eq]
    unfold qsum
    rw [hq, chunkSizeAt_congr hst]
  · intro a c hac
    rw [hst] at hac
    exact le_trans (h.dom_end a c hac) hnp
  · intro a c hac
    rw [hst] at hac
    exact h.size_pos a c hac
  · intro a b ca cb ha hb hab
    rw [hst] at ha hb
    exact h.disj a b ca cb ha hb hab
  · intro a ha
    rw [hq] at ha
    obtain ⟨c, hc, hcs⟩ := h.qstate a ha
    exact ⟨c, by rw [hst]; exact hc, hcs⟩
  · rw [hq]
    exact h.qnodup
  · intro i a ha
    rw [hst]
    exact h.flmem i a (hfl i a ha)
  · intro a c hac
    rw [hst] at hac
    exact h.aligned a c hac
  · exact hpa

/-- Rewriting one chunk header in place, keeping its `allocated_size`,
preserves well-formedness as long as a quarantined chunk keeps the
QUARANTINE state. -/
theorem QInv_setChunk {s : AllocState} {m : Nat} {c c' : Chunk} (h : QInv s)
    (hget : s.store m = some c) (hsz : c'.allocated_size = c.allocated_size)
    (hqm : m ∈ s.quarantine → c'.chunk_state = CHUNK_QUARANTINE) :
    QInv (setChunk s m c') := by
  have hcs : ∀ a, chunkSizeAt (setChunk s m c') a = chunkSizeAt s a := by
    intro a
    by_cases hx : a = m
    · subst hx
      simp [chunkSizeAt, setChunk, hget, hsz]
    · simp [chunkSizeAt, setChunk, hx]
  have hstore : ∀ a, (setChunk s m c').store a =
      if a = m then some c' else s.store a := fun a => rfl
  refine ⟨?_, ?_, ?_, ?_, ?_, ?_, ?_, ?_, ?_⟩
  · show s.quarantine_size = qsum (setChunk s m c')
    rw [h.qsum_eq]
    unfold qsum
    show _ = (s.quarantine.map (chunkSizeAt (setChunk s m c'))).sum
    rw [List.map_congr_left (fun a _ => hcs a)]
  · intro a c₀ hac
    rw [hstore] at hac
    show a + c₀.allocated_size ≤ s.nextPage
    by_cases hx : a = m
    · rw [if_pos hx] at hac
      obtain rfl : c' = c₀ := by injection hac
      subst hx
      rw [hsz]
      exact h.dom_end a c hget
    · rw [if_neg hx] at hac
      exact h.dom_end a c₀ hac
  · intro a c₀ hac
    rw [hstore] at hac
    by_cases hx : a = m
    · rw [if_pos hx] at hac
      obtain rfl : c' = c₀ := by injection hac
      rw [hsz]
      exact h.size_pos m c hget
    · rw [if_neg hx] at hac
      exact h.size_pos a c₀ hac
  · intro a b ca cb ha hb hab
    rw [hstore] at ha hb
    have hsa : ∀ x cx, (if x = m then some c' else s.store x) = some cx →
        ∃ cy, s.store x = some cy ∧ cy.allocated_size = cx.allocated_size := by
      intro x cx hx
      by_cases hxm : x = m
      · rw [if_pos hxm] at hx
        obtain rfl : c' = cx := by injection hx
        exact ⟨c, by rw [hxm]; exact hget, hsz.symm⟩
      · rw [if_neg hxm] at hx
        exact ⟨cx, hx, rfl⟩
    obtain ⟨ca', hca', hsza⟩ := hsa a ca ha
    obtain ⟨cb', hcb', _⟩ := hsa b cb hb
    have := h.disj a b ca' cb' hca' hcb' hab
    omega
  · intro a ha
    show ∃ c₀, (setChunk s m c').store a = some c₀ ∧ c₀.chunk_state = CHUNK_QUARANTINE
    rw [hstore]
    by_cases hx : a = m
    · subst hx
      exact ⟨c', by simp, hqm ha⟩
    · rw [if_neg hx]
      exact h.qstate a ha
  · exact h.qnodup
  · intro i a ha
    rw [hstore]
    by_cases hx : a = m
    · simp [hx]
    · rw [if_neg hx]
      exact h.flmem i a ha
  · intro a c₀ hac
    rw [hstore] at hac
    by_cases hx : a = m
    · exact hx ▸ h.aligned m c hget
    · rw [if_neg hx] at hac
      exact h.aligned a c₀ hac
  · exact h.page_al

/- ### Specifications of the state primitives -/

theorem shiftLeft_one_shadow : (1 : Nat) <<< kShadowShift = 8 := rfl

theorem IsAligned_eight {x : Nat} : IsAligned x 8 = true ↔ x % 8 = 0 := by
  have h := @IsAligned_two_pow x 3
  norm_num at h
  exact h

theorem IsWordAligned_iff {x : Nat} : IsWordAligned x = true ↔ x % 8 = 0 := by
  rw [IsWordAligned, show kWordSize = 8 from rfl]
  exact IsAligned_eight

theorem PoisonShadow_spec {s : AllocState} {mem size poison : Nat} {s' : AllocState}
    (h : PoisonShadow s mem size poison = .ok s') :
    mem % 8 = 0 ∧ (mem + size) % 8 = 0 ∧
    s'.store = s.store ∧ s'.freelist = s.freelist ∧ s'.quarantine = s.quarantine ∧
    s'.quarantine_size = s.quarantine_size ∧ s'.malloced = s.malloced ∧
    s'.shim = s.shim ∧ s'.nextPage = s.nextPage ∧ s'.cap = s.cap ∧
    (∀ g, mem >>> kShadowShift ≤ g → g < (mem + size) >>> kShadowShift →
      s'.shadow g = poison) ∧
    (∀ g, g < mem >>> kShadowShift ∨ (mem + size) >>> kShadowShift ≤ g →
      s'.shadow g = s.shadow g) := by
  unfold PoisonShadow at h
  rw [shiftLeft_one_shadow] at h
  simp only [bind_ok, CHECK_ok, pure_ok, map_ok] at h
  obtain ⟨_, h1, _, h2, hs⟩ := h
  rw [IsAligned_eight] at h1 h2
  subst hs
  refine ⟨h1, h2, rfl, rfl, rfl, rfl, rfl, rfl, rfl, rfl, ?_, ?_⟩
  · intro g hg1 hg2
    simp [hg1, hg2]
  · intro g hg
    have : ¬(mem >>> kShadowShift ≤ g ∧ g < (mem + size) >>> kShadowShift) := by
      rcases hg with hg | hg <;> omega
    simp [this]

theorem QInv_PoisonShadow {s : AllocState} {mem size poison : Nat} {s' : AllocState}
    (hq : QInv s) (h : PoisonShadow s mem size poison = .ok s') : QInv s' := by
  obtain ⟨_, _, hst, hfl, hqr, hqs, _, _, hnp, _, _, _⟩ := PoisonShadow_spec h
  exact hq.transfer hst hqr hqs (fun j a ha => by rw [hfl] at ha; exact ha)
    (by rw [hnp]) (by rw [hnp]; exact hq.page_al)

theorem MmapNewPages_spec {s : AllocState} {size res : Nat} {s' : AllocState}
    (h : MmapNewPages s size = .ok (res, s')) :
    res = s.nextPage ∧ s'.nextPage = s.nextPage + size ∧ size % kPageSize = 0 ∧
    s'.store = s.store ∧ s'.freelist = s.freelist ∧ s'.quarantine = s.quarantine ∧
    s'.quarantine_size = s.quarantine_size ∧ s'.malloced = s.malloced ∧
    s'.shim = s.shim ∧ s'.cap = s.cap := by
  unfold MmapNewPages at h
  simp only [bind_ok, CHECK_ok, pure_ok, map_ok, beq_iff_eq] at h
  obtain ⟨_, hmod, s₁, hps, hres⟩ := h
  obtain ⟨_, _, hst, hfl, hqr, hqs, hml, hsh, hnp, hcap, _, _⟩ := PoisonShadow_spec hps
  obtain ⟨rfl, rfl⟩ : res = s.nextPage ∧ s₁ = s' := by
    injection hres with h1 h2
    exact ⟨h1.symm, h2⟩
  exact ⟨rfl, by rw [hnp], hmod, hst, hfl, hqr, hqs, hml, hsh, hcap⟩

theorem QInv_MmapNewPages {s : AllocState} {size res : Nat} {s' : AllocState}
    (hq : QInv s) (h : MmapNewPages s size = .ok (res, s')) : QInv s' := by
  obtain ⟨_, hnp, hmod, hst, hfl, hqr, hqs, _, _, _⟩ := MmapNewPages_spec h
  refine hq.transfer hst hqr hqs (fun j a ha => by rw [hfl] at ha; exact ha)
    (by omega) ?_
  rw [hnp, kPageSize_eq] at *
  have := hq.page_al
  rw [kPageSize_eq] at this
  omega

end AsanAlloc

namespace AsanAlloc

/- ### The carving loop of `GetNewChunks` -/

theorem carve_store (mem size idx : Nat) :
    ∀ n (s : AllocState) (a : Nat),
      (carve mem size idx s n).store a =
        if ∃ i, i < n ∧ a = mem + i * size then some ⟨CHUNK_AVAILABLE, size, 0⟩
        else s.store a := by
  intro n
  induction n with
  | zero =>
    intro s a
    simp [carve]
  | succ n ih =>
    intro s a
    have hcs : (carve mem size idx s (n + 1)).store a =
        if a = mem + n * size then some ⟨CHUNK_AVAILABLE, size, 0⟩
        else (carve mem size idx s n).store a := rfl
    rw [hcs, ih]
    by_cases hx : a = mem + n * size
    · rw [if_pos hx, if_pos ⟨n, by omega, hx⟩]
    · rw [if_neg hx]
      by_cases he : ∃ i, i < n ∧ a = mem + i * size
      · obtain ⟨i, hi, ha⟩ := he
        rw [if_pos ⟨i, hi, ha⟩, if_pos ⟨i, by omega, ha⟩]
      · rw [if_neg he, if_neg ?_]
        rintro ⟨i, hi, ha⟩
        rcases Nat.lt_succ_iff_lt_or_eq.mp hi with h | h
        · exact he ⟨i, h, ha⟩
        · exact hx (h ▸ ha)

theorem carve_store_old {mem size idx : Nat} {n : Nat} {s : AllocState} {a : Nat}
    (ha : a < mem) : (carve mem size idx s n).store a = s.store a := by
  rw [carve_store, if_neg]
  rintro ⟨i, hi, rfl⟩
  omega

theorem carve_freelist_ne (mem size idx j : Nat) (hj : j ≠ idx) :
    ∀ n s, (carve mem size idx s n).freelist j = s.freelist j := by
  intro n
  induction n with
  | zero =>
    intro s
    rfl
  | succ n ih =>
    intro s
    have hcs : (carve mem size idx s (n + 1)).freelist j =
        (carve mem size idx s n).freelist j := by
      show (carveOne mem size idx (carve mem size idx s n) n).freelist j = _
      simp [carveOne, setFreelist, setChunk, hj]
    rw [hcs, ih]

theorem carve_freelist_mem (mem size idx : Nat) :
    ∀ n s a, a ∈ (carve mem size idx s n).freelist idx →
      (∃ i, i < n ∧ a = mem + i * size) ∨ a ∈ s.freelist idx := by
  intro n
  induction n with
  | zero =>
    intro s a h
    exact .inr h
  | succ n ih =>
    intro s a h
    have hcs : (carve mem size idx s (n + 1)).freelist idx =
        (mem + n * size) :: (carve mem size idx s n).freelist idx := by
      show (carveOne mem size idx (carve mem size idx s n) n).freelist idx = _
      simp [carveOne, setFreelist, setChunk]
    rw [hcs] at h
    rcases List.mem_cons.mp h with h | h
    · exact .inl ⟨n, by omega, h⟩
    · rcases ih s a h with ⟨i, hi, ha⟩ | h
      · exact .inl ⟨i, by omega, ha⟩
      · exact .inr h

theorem carve_frame (mem size idx : Nat) :
    ∀ n s, (carve mem size idx s n).quarantine = s.quarantine ∧
      (carve mem size idx s n).quarantine_size = s.quarantine_size ∧
      (carve mem size idx s n).malloced = s.malloced ∧
      (carve mem size idx s n).shim = s.shim ∧
      (carve mem size idx s n).shadow = s.shadow ∧
      (carve mem size idx s n).nextPage = s.nextPage ∧
      (carve mem size idx s n).cap = s.cap := by
  intro n
  induction n with
  | zero =>
    intro s
    exact ⟨rfl, rfl, rfl, rfl, rfl, rfl, rfl⟩
  | succ n ih =>
    intro s
    have h := ih s
    show (carveOne mem size idx (carve mem size idx s n) n).quarantine = _ ∧ _
    simp only [carveOne, setFreelist, setChunk]
    exact h

theorem mod_red_add_mul {mem size i : Nat} (hm : mem % kRedzone = 0)
    (hs : size % kRedzone = 0) : (mem + i * size) % kRedzone = 0 := by
  rw [Nat.add_mod, Nat.mul_mod, hs, hm]
  simp

theorem QInv_carve {s : AllocState} {mem size idx : Nat} (n : Nat) (hq : QInv s)
    (hsz : 0 < size) (hsal : size % kRedzone = 0) (hmal : mem % kRedzone = 0)
    (hend : ∀ a c, s.store a = some c → a + c.allocated_size ≤ mem)
    (hn : mem + n * size ≤ s.nextPage) :
    QInv (carve mem size idx s n) := by
  obtain ⟨hfq, hfqs, hfm, hfsh, hfsd, hfnp, hfc⟩ := carve_frame mem size idx n s
  have hold : ∀ a c, s.store a = some c →
      (carve mem size idx s n).store a = s.store a := by
    intro a c hac
    have := hend a c hac
    have := hq.size_pos a c hac
    exact carve_store_old (by omega)
  refine ⟨?_, ?_, ?_, ?_, ?_, ?_, ?_, ?_, ?_⟩
  · rw [hfqs, hq.qsum_eq]
    unfold qsum
    rw [hfq]
    congr 1
    apply List.map_congr_left
    intro a ha
    obtain ⟨c, hc, _⟩ := hq.qstate a ha
    simp [chunkSizeAt, hold a c hc, hc]
  · intro a c hac
    rw [carve_store] at hac
    rw [hfnp]
    split at hac
    · next hex =>
      obtain ⟨i, hi, rfl⟩ := hex
      obtain rfl : (⟨CHUNK_AVAILABLE, size, 0⟩ : Chunk) = c := by injection hac
      show mem + i * size + size ≤ s.nextPage
      have : (i + 1) * size ≤ n * size := Nat.mul_le_mul_right _ (by omega)
      have h1 : (i + 1) * size = i * size + size := by ring
      omega
    · exact hq.dom_end a c hac
  · intro a c hac
    rw [carve_store] at hac
    split at hac
    · obtain rfl : (⟨CHUNK_AVAILABLE, size, 0⟩ : Chunk) = c := by injection hac
      exact hsz
    · exact hq.size_pos a c hac
  · intro a b ca cb ha hb hab
    rw [carve_store] at ha hb
    split at ha
    · next hexa =>
      obtain ⟨i, hi, rfl⟩ := hexa
      obtain rfl : (⟨CHUNK_AVAILABLE, size, 0⟩ : Chunk) = ca := by injection ha
      split at hb
      · next hexb =>
        obtain ⟨j, hj, rfl⟩ := hexb
        have hij : i < j := by
          by_contra hle
          have : j * size ≤ i * size := Nat.mul_le_mul_right _ (by omega)
          omega
        have : (i + 1) * size ≤ j * size := Nat.mul_le_mul_right _ (by omega)
        have h1 : (i + 1) * size = i * size + size := by ring
        show mem + i * size + size ≤ mem + j * size
        omega
      · exfalso
        have h1 := hend b cb hb
        have h2 := hq.size_pos b cb hb
        omega
    · next hexa =>
      have h1 := hend a ca ha
      split at hb
      · next hexb =>
        obtain ⟨j, hj, rfl⟩ := hexb
        omega
      · exact hq.disj a b ca cb ha hb hab
  · intro a ha
    rw [hfq] at ha
    obtain ⟨c, hc, hcs⟩ := hq.qstate a ha
    exact ⟨c, by rw [hold a c hc]; exact hc, hcs⟩
  · rw [hfq]
    exact hq.qnodup
  · intro j a ha
    rw [carve_store]
    split
    · simp
    · next hex =>
      by_cases hj : j = idx
      · subst hj
        rcases carve_freelist_mem mem size j n s a ha with hnew | hold2
        · exact absurd hnew hex
        · exact hq.flmem j a hold2
      · rw [carve_freelist_ne mem size idx j hj] at ha
        exact hq.flmem j a ha
  · intro a c hac
    rw [carve_store] at hac
    split at hac
    · next hex =>
      obtain ⟨i, hi, rfl⟩ := hex
      exact mod_red_add_mul hmal hsal
    · exact hq.aligned a c hac
  · rw [hfnp]
    exact hq.page_al

/- ### `GetNewChunks` and `AllocateChunk` -/

theorem GetNewChunks_spec {s : AllocState} {size : Nat} {s' : AllocState}
    (hq : QInv s) (hsal : size % kRedzone = 0) (hsz : 0 < size)
    (h : GetNewChunks s size = .ok s') :
    QInv s' ∧ s'.quarantine = s.quarantine ∧
    s'.quarantine_size = s.quarantine_size ∧ s'.cap = s.cap ∧
    s'.malloced = s.malloced ∧ s'.shim = s.shim ∧
    (∀ a c, s.store a = some c → s'.store a = some c) := by
  unfold GetNewChunks at h
  simp only [bind_ok, CHECK_ok, pure_ok, map_ok, beq_iff_eq] at h
  obtain ⟨idx, hlog, _, hfl, _, hp2, _, _, _, hp3, ⟨mem, s₁⟩, hmmap, hcarve⟩ := h
  obtain ⟨hres, hnp, hmod, hst, hflm, hqr, hqs, hml, hsh, hcap⟩ := MmapNewPages_spec hmmap
  have hq₁ : QInv s₁ := QInv_MmapNewPages hq hmmap
  have hmal : mem % kRedzone = 0 := by
    have := hq.page_al
    rw [kPageSize_eq] at this
    rw [hres, kRedzone_eq]
    omega
  have hend : ∀ a c, s₁.store a = some c → a + c.allocated_size ≤ mem := by
    intro a c hac
    rw [hst] at hac
    rw [hres]
    exact hq.dom_end a c hac
  have hn : mem + (max size kMinMmapSize / size) * size ≤ s₁.nextPage := by
    rw [hnp, hres]
    have := Nat.div_mul_le_self (max size kMinMmapSize) size
    omega
  obtain ⟨hfq, hfqs, hfm, hfsh, hfsd, hfnp, hfc⟩ :=
    carve_frame mem size idx (max size kMinMmapSize / size) s₁
  subst hcarve
  refine ⟨QInv_carve _ hq₁ hsz hsal hmal hend hn, ?_, ?_, ?_, ?_, ?_, ?_⟩
  · rw [hfq, hqr]
  · rw [hfqs, hqs]
  · rw [hfc, hcap]
  · rw [hfm, hml]
  · rw [hfsh, hsh]
  · intro a c hac
    have h1 := hq.dom_end a c hac
    have h2 := hq.size_pos a c hac
    rw [carve_store_old (by omega : a < mem), hst]
    exact hac

theorem AllocateChunkPop_spec {s₁ : AllocState} {idx m : Nat} {s' : AllocState}
    (hq₁ : QInv s₁) (h : AllocateChunkPop s₁ idx = .ok (m, s')) :
    QInv s' ∧ s'.quarantine = s₁.quarantine ∧
    s'.quarantine_size = s₁.quarantine_size ∧ s'.cap = s₁.cap ∧
    s'.shim = s₁.shim ∧ m % kRedzone = 0 ∧
    ∃ asz usz, s'.store m = some ⟨CHUNK_ALLOCATED, asz, usz⟩ := by
  unfold AllocateChunkPop at h
  cases hl : s₁.freelist idx with
  | nil =>
    rw [hl] at h
    simp at h
  | cons m₀ rest =>
    rw [hl] at h
    simp only [bind_ok, CHECK_ok, pure_ok, map_ok, beq_iff_eq, getChunk_ok] at h
    obtain ⟨c, hc, _, hcs, hfin⟩ := h
    injection hfin with h1 h2
    obtain rfl : m = m₀ := h1.symm
    subst h2
    have hc₂ : (setFreelist s₁ idx rest).store m = some c := hc
    have hq₂ : QInv (setFreelist s₁ idx rest) := by
      refine hq₁.transfer rfl rfl rfl ?_ le_rfl hq₁.page_al
      intro j a ha
      by_cases hj : j = idx
      · have he : (setFreelist s₁ idx rest).freelist j = rest := by
          simp [setFreelist, hj]
        rw [he] at ha
        rw [hj, hl]
        exact List.mem_cons_of_mem _ ha
      · have he : (setFreelist s₁ idx rest).freelist j = s₁.freelist j := by
          simp [setFreelist, hj]
        rw [he] at ha
        exact ha
    have hnotq : m ∈ (setFreelist s₁ idx rest).quarantine →
        ({ c with chunk_state := CHUNK_ALLOCATED } : Chunk).chunk_state =
          CHUNK_QUARANTINE := by
      intro hmq
      exfalso
      obtain ⟨c', hc', hcs'⟩ := hq₂.qstate m hmq
      rw [hc₂] at hc'
      obtain rfl : c = c' := by injection hc'
      rw [hcs] at hcs'
      simp [CHUNK_AVAILABLE, CHUNK_QUARANTINE] at hcs'
    have hq₃ : QInv (setChunk (setFreelist s₁ idx rest) m
        { c with chunk_state := CHUNK_ALLOCATED }) :=
      QInv_setChunk hq₂ hc₂ rfl hnotq
    have halign : m % kRedzone = 0 := hq₁.aligned m c hc
    refine ⟨?_, rfl, rfl, rfl, rfl, halign,
      c.allocated_size, c.used_size, ?_⟩
    · exact hq₃.transfer rfl rfl rfl (fun j a ha => ha) le_rfl hq₃.page_al
    · show (setChunk (setFreelist s₁ idx rest) m
        { c with chunk_state := CHUNK_ALLOCATED }).store m = _
      simp [setChunk]

theorem AllocateChunk_spec {s : AllocState} {size m : Nat} {s' : AllocState}
    (hq : QInv s) (hsal : size % kRedzone = 0) (hsz : 0 < size)
    (h : AllocateChunk s size = .ok (m, s')) :
    QInv s' ∧ s'.quarantine = s.quarantine ∧
    s'.quarantine_size = s.quarantine_size ∧ s'.cap = s.cap ∧
    s'.shim = s.shim ∧ m % kRedzone = 0 ∧
    ∃ asz usz, s'.store m = some ⟨CHUNK_ALLOCATED, asz, usz⟩ := by
  unfold AllocateChunk at h
  simp only [bind_ok, CHECK_ok, pure_ok, map_ok, beq_iff_eq] at h
  obtain ⟨_, hpow, idx, hlog, h⟩ := h
  split at h
  · rw [bind_ok] at h
    obtain ⟨s₁, hs₁, h⟩ := h
    obtain ⟨hq₁, h1, h2, h3, _, h5, _⟩ := GetNewChunks_spec hq hsal hsz hs₁
    obtain ⟨hq', g1, g2, g3, g4, g5, g6⟩ := AllocateChunkPop_spec hq₁ h
    exact ⟨hq', by rw [g1, h1], by rw [g2, h2], by rw [g3, h3],
      by rw [g4, h5], g5, g6⟩
  · rw [bind_ok] at h
    obtain ⟨s₁, hs₁, h⟩ := h
    rw [pure_ok] at hs₁
    subst hs₁
    exact AllocateChunkPop_spec hq h

end AsanAlloc

namespace AsanAlloc

/- ### The quarantine: `pop`, `popLoop`, `TakeChunkBack` -/

theorem getLastD_eq_getLast {l : List Nat} (h : l ≠ []) :
    l.getLastD 0 = l.getLast h := by
  rw [List.getLastD_eq_getLast?, List.getLast?_eq_getLast l h]
  rfl

theorem isEmpty_false_iff {l : List Nat} : l.isEmpty = false ↔ l ≠ [] := by
  cases l <;> simp

theorem pop_spec {s : AllocState} {s' : AllocState} (h : pop s = .ok s') :
    ∃ c, s.quarantine ≠ [] ∧ 0 < s.quarantine_size ∧
      s.store (s.quarantine.getLastD 0) = some c ∧
      c.chunk_state = CHUNK_QUARANTINE ∧
      c.allocated_size ≤ s.quarantine_size ∧
      IsPowerOfTwo c.allocated_size = true ∧
      s'.quarantine = s.quarantine.dropLast ∧
      s'.quarantine_size = s.quarantine_size - c.allocated_size ∧
      (∀ x, s'.store x = if x = s.quarantine.getLastD 0
        then some { c with chunk_state := CHUNK_AVAILABLE } else s.store x) ∧
      (∀ j, s'.freelist j = if j = ctz c.allocated_size
        then s.quarantine.getLastD 0 :: s.freelist j else s.freelist j) ∧
      s'.malloced = s.malloced ∧ s'.shim = s.shim ∧ s'.shadow = s.shadow ∧
      s'.nextPage = s.nextPage ∧ s'.cap = s.cap := by
  unfold pop Log2 at h
  simp only [bind_ok, CHECK_ok, pure_ok, map_ok, beq_iff_eq, getChunk_ok,
    decide_eq_true_eq, Bool.not_eq_true'] at h
  obtain ⟨_, hne, _, hpos, c, hc, _, hle, _, hcs, idx, ⟨_, hpow, hidx⟩, hfin⟩ := h
  rw [isEmpty_false_iff] at hne
  subst hidx
  refine ⟨c, hne, hpos, hc, hcs, hle, hpow, ?_⟩
  subst hfin
  refine ⟨rfl, rfl, ?_, ?_, rfl, rfl, rfl, rfl, rfl⟩
  · intro x
    rfl
  · intro j
    by_cases hj : j = ctz c.allocated_size
    · subst hj
      simp [setFreelist, setChunk]
    · simp [setFreelist, setChunk, hj]

theorem nodup_last_notin_dropLast {l : List Nat} (hne : l ≠ []) (hnd : l.Nodup) :
    l.getLastD 0 ∉ l.dropLast := by
  intro hmem
  have hsplit : l.dropLast ++ [l.getLast hne] = l := List.dropLast_append_getLast hne
  rw [getLastD_eq_getLast hne] at hmem
  rw [← hsplit] at hnd
  rw [List.nodup_append] at hnd
  exact hnd.2.2 hmem (List.mem_singleton_self _)

theorem mem_dropLast_of_ne_last {l : List Nat} {m : Nat} (hne : l ≠ [])
    (hm : m ∈ l) (hmne : m ≠ l.getLastD 0) : m ∈ l.dropLast := by
  have hsplit : l.dropLast ++ [l.getLast hne] = l := List.dropLast_append_getLast hne
  rw [← hsplit] at hm
  rcases List.mem_append.mp hm with h | h
  · exact h
  · exfalso
    rw [List.mem_singleton] at h
    rw [getLastD_eq_getLast hne] at hmne
    exact hmne h

theorem qsum_last {s : AllocState} {c : Chunk} (hne : s.quarantine ≠ [])
    (hc : s.store (s.quarantine.getLastD 0) = some c) :
    qsum s = (s.quarantine.dropLast.map (chunkSizeAt s)).sum + c.allocated_size := by
  have hsplit : s.quarantine.dropLast ++ [s.quarantine.getLast hne] = s.quarantine :=
    List.dropLast_append_getLast hne
  have hc2 : s.store (s.quarantine.getLast hne) = some c := by
    rw [← getLastD_eq_getLast hne]
    exact hc
  unfold qsum
  conv_lhs => rw [← hsplit]
  rw [List.map_append, List.sum_append]
  simp [chunkSizeAt, hc2]

theorem pop_QInv {s s' : AllocState} (hq : QInv s) (h : pop s = .ok s') :
    QInv s' ∧ s'.cap = s.cap ∧ s'.malloced = s.malloced ∧ s'.shim = s.shim ∧
    s'.shadow = s.shadow ∧ s'.nextPage = s.nextPage ∧
    s'.quarantine = s.quarantine.dropLast ∧
    s'.quarantine.length < s.quarantine.length := by
  obtain ⟨c, hne, hpos, hc, hcs, hle, hpow, hqr, hqs, hst, hfl, hml, hsh, hsd,
    hnp, hcap⟩ := pop_spec h
  have hlast_nin : s.quarantine.getLastD 0 ∉ s.quarantine.dropLast :=
    nodup_last_notin_dropLast hne hq.qnodup
  have hlen : s.quarantine.dropLast.length < s.quarantine.length := by
    rw [List.length_dropLast]
    have := List.length_pos.mpr hne
    omega
  refine ⟨⟨?_, ?_, ?_, ?_, ?_, ?_, ?_, ?_, ?_⟩, hcap, hml, hsh, hsd, hnp, hqr,
    by rw [hqr]; exact hlen⟩
  · -- counter equals the sum over the shortened ring
    rw [hqs, hq.qsum_eq, qsum_last hne hc]
    unfold qsum
    rw [hqr]
    have hmap : s.quarantine.dropLast.map (chunkSizeAt s') =
        s.quarantine.dropLast.map (chunkSizeAt s) := by
      apply List.map_congr_left
      intro a ha
      have hane : a ≠ s.quarantine.getLastD 0 := by
        intro hx
        exact hlast_nin (hx ▸ ha)
      unfold chunkSizeAt
      rw [hst a, if_neg hane]
    rw [hmap]
    omega
  · intro a c₀ hac
    rw [hst a] at hac
    rw [hnp]
    by_cases hx : a = s.quarantine.getLastD 0
    · rw [if_pos hx] at hac
      obtain rfl : ({ c with chunk_state := CHUNK_AVAILABLE } : Chunk) = c₀ := by
        injection hac
      subst hx
      exact hq.dom_end _ c hc
    · rw [if_neg hx] at hac
      exact hq.dom_end a c₀ hac
  · intro a c₀ hac
    rw [hst a] at hac
    by_cases hx : a = s.quarantine.getLastD 0
    · rw [if_pos hx] at hac
      obtain rfl : ({ c with chunk_state := CHUNK_AVAILABLE } : Chunk) = c₀ := by
        injection hac
      exact hq.size_pos _ c hc
    · rw [if_neg hx] at hac
      exact hq.size_pos a c₀ hac
  · intro a b ca cb ha hb hab
    rw [hst a] at ha
    rw [hst b] at hb
    have hsa : ∀ x cx, (if x = s.quarantine.getLastD 0
        then some { c with chunk_state := CHUNK_AVAILABLE } else s.store x) = some cx →
        ∃ cy, s.store x = some cy ∧ cy.allocated_size = cx.allocated_size := by
      intro x cx hx
      by_cases hxm : x = s.quarantine.getLastD 0
      · rw [if_pos hxm] at hx
        obtain rfl : ({ c with chunk_state := CHUNK_AVAILABLE } : Chunk) = cx := by
          injection hx
        exact ⟨c, hxm ▸ hc, rfl⟩
      · rw [if_neg hxm] at hx
        exact ⟨cx, hx, rfl⟩
    obtain ⟨ca', hca', hsza⟩ := hsa a ca ha
    obtain ⟨cb', hcb', _⟩ := hsa b cb hb
    have := hq.disj a b ca' cb' hca' hcb' hab
    omega
  · intro a ha
    rw [hqr] at ha
    have hane : a ≠ s.quarantine.getLastD 0 := by
      intro hx
      exact nodup_last_notin_dropLast hne hq.qnodup (hx ▸ ha)
    obtain ⟨c₀, hc₀, hcs₀⟩ :=
      hq.qstate a ((List.dropLast_sublist s.quarantine).subset ha)
    refine ⟨c₀, ?_, hcs₀⟩
    rw [hst a, if_neg hane]
    exact hc₀
  · rw [hqr]
    exact hq.qnodup.sublist (List.dropLast_sublist _)
  · intro j a ha
    rw [hfl j] at ha
    rw [hst a]
    by_cases hx : a = s.quarantine.getLastD 0
    · simp [hx]
    · rw [if_neg hx]
      split at ha
      · rcases List.mem_cons.mp ha with h | h
        · exact absurd h hx
        · exact hq.flmem j a h
      · exact hq.flmem j a ha
  · intro a c₀ hac
    rw [hst a] at hac
    by_cases hx : a = s.quarantine.getLastD 0
    · subst hx
      exact hq.aligned _ c hc
    · rw [if_neg hx] at hac
      exact hq.aligned a c₀ hac
  · rw [hnp]
    exact hq.page_al

end AsanAlloc

namespace AsanAlloc

theorem popLoop_spec : ∀ fuel (s s' : AllocState), QInv s →
    popLoop fuel s = .ok s' →
    QInv s' ∧ s'.quarantine_size ≤ s'.cap ∧ s'.cap = s.cap ∧
    s'.malloced = s.malloced ∧ s'.shim = s.shim ∧ s'.shadow = s.shadow ∧
    s'.nextPage = s.nextPage := by
  intro fuel
  induction fuel with
  | zero =>
    intro s s' _ h
    simp [popLoop] at h
  | succ fuel ih =>
    intro s s' hq h
    rw [popLoop] at h
    split at h
    · rw [bind_ok] at h
      obtain ⟨s₁, hpop, h⟩ := h
      obtain ⟨c, _, _, _, _, _, _, _, _, _, _, hml₁, hsh₁, hsd₁, hnp₁, hcap₁⟩ :=
        pop_spec hpop
      obtain ⟨hq₁, hcap, hml, hsh, hsd, hnp, _, _⟩ := pop_QInv hq hpop
      obtain ⟨a1, a2, a3, a4, a5, a6, a7⟩ := ih s₁ s' hq₁ h
      exact ⟨a1, a2, by rw [a3, hcap₁], by rw [a4, hml₁], by rw [a5, hsh₁],
        by rw [a6, hsd₁], by rw [a7, hnp₁]⟩
    · next hcond =>
      rw [pure_ok] at h
      subst h
      refine ⟨hq, ?_, rfl, rfl, rfl, rfl, rfl⟩
      omega
  
theorem popLoop_untouched : ∀ fuel (s s' : AllocState) (m : Nat),
    m ∉ s.quarantine → popLoop fuel s = .ok s' →
    s'.store m = s.store m ∧ m ∉ s'.quarantine ∧
    (∀ j, m ∈ s.freelist j → m ∈ s'.freelist j) := by
  intro fuel
  induction fuel with
  | zero =>
    intro s s' m _ h
    simp [popLoop] at h
  | succ fuel ih =>
    intro s s' m hnm h
    rw [popLoop] at h
    split at h
    · rw [bind_ok] at h
      obtain ⟨s₁, hpop, h⟩ := h
      obtain ⟨c, hne, _, hc, _, _, _, hqr₁, _, hst₁, hfl₁, _, _, _, _, _⟩ :=
        pop_spec hpop
      have hlast_mem : s.quarantine.getLastD 0 ∈ s.quarantine := by
        rw [getLastD_eq_getLast hne]
        exact List.getLast_mem hne
      have hmne : m ≠ s.quarantine.getLastD 0 := by
        intro hx
        exact hnm (hx ▸ hlast_mem)
      have hnm₁ : m ∉ s₁.quarantine := by
        rw [hqr₁]
        intro hmem
        exact hnm ((List.dropLast_sublist s.quarantine).subset hmem)
      obtain ⟨b1, b2, b3⟩ := ih s₁ s' m hnm₁ h
      refine ⟨?_, b2, ?_⟩
      · rw [b1, hst₁ m, if_neg hmne]
      · intro j hj
        refine b3 j ?_
        rw [hfl₁ j]
        split
        · exact List.mem_cons_of_mem _ hj
        · exact hj
    · rw [pure_ok] at h
      subst h
      exact ⟨rfl, hnm, fun j hj => hj⟩

theorem chunkSizeAt_mem_le_qsum {s : AllocState} {m : Nat} {c : Chunk}
    (hq : QInv s) (hmem : m ∈ s.quarantine) (hc : s.store m = some c) :
    c.allocated_size ≤ s.quarantine_size := by
  rw [hq.qsum_eq]
  have h1 : chunkSizeAt s m = c.allocated_size := by
    simp [chunkSizeAt, hc]
  have h2 : chunkSizeAt s m ∈ s.quarantine.map (chunkSizeAt s) :=
    List.mem_map_of_mem _ hmem
  have := List.single_le_sum (fun x _ => Nat.zero_le x) _ h2
  rw [h1] at this
  exact this

theorem popLoop_oversize : ∀ fuel (s s' : AllocState) (m : Nat) (c : Chunk),
    QInv s → m ∈ s.quarantine → s.store m = some c →
    s.cap < c.allocated_size → popLoop fuel s = .ok s' →
    s'.store m = some { c with chunk_state := CHUNK_AVAILABLE } ∧
    m ∉ s'.quarantine ∧ m ∈ s'.freelist (ctz c.allocated_size) := by
  intro fuel
  induction fuel with
  | zero =>
    intro s s' m c _ _ _ _ h
    simp [popLoop] at h
  | succ fuel ih =>
    intro s s' m c hq hmem hstore hbig h
    have hle : c.allocated_size ≤ s.quarantine_size :=
      chunkSizeAt_mem_le_qsum hq hmem hstore
    rw [popLoop] at h
    rw [if_pos (by omega : 0 < s.quarantine_size ∧
      s.cap < s.quarantine_size)] at h
    rw [bind_ok] at h
    obtain ⟨s₁, hpop, h⟩ := h
    obtain ⟨c₀, hne, _, hc₀, hcs₀, _, _, hqr₁, _, hst₁, hfl₁, _, _, _, _, hcap₁⟩ :=
      pop_spec hpop
    by_cases hlm : m = s.quarantine.getLastD 0
    · -- this very iteration evicts m
      have hceq : c₀ = c := by
        have hx := hc₀
        rw [← hlm, hstore] at hx
        injection hx with hx'
        exact hx'.symm
      subst hceq
      have hnm₁ : m ∉ s₁.quarantine := by
        rw [hqr₁, hlm]
        exact nodup_last_notin_dropLast hne hq.qnodup
      obtain ⟨b1, b2, b3⟩ := popLoop_untouched fuel s₁ s' m hnm₁ h
      refine ⟨?_, b2, ?_⟩
      · rw [b1, hst₁ m, if_pos hlm]
      · refine b3 _ ?_
        rw [hfl₁ _, if_pos rfl, ← hlm]
        exact List.mem_cons_self _ _
    · -- another chunk is evicted; recurse
      have hq₁ : QInv s₁ := (pop_QInv hq hpop).1
      have hmem₁ : m ∈ s₁.quarantine := by
        rw [hqr₁]
        exact mem_dropLast_of_ne_last hne hmem hlm
      have hstore₁ : s₁.store m = some c := by
        rw [hst₁ m, if_neg hlm]
        exact hstore
      have hbig₁ : s₁.cap < c.allocated_size := by
        rw [hcap₁]
        exact hbig
      exact ih s₁ s' m c hq₁ hmem₁ hstore₁ hbig₁ h

/-- Inserting a QUARANTINE-stated chunk at the quarantine head while adding
its size to the counter preserves well-formedness; the malloced list is
irrelevant to the invariant. -/
theorem QInv_qpush {s : AllocState} {m : Nat} {c : Chunk} (l : List Nat)
    (hq : QInv s) (hst : s.store m = some c)
    (hcs : c.chunk_state = CHUNK_QUARANTINE) (hnm : m ∉ s.quarantine) :
    QInv { s with quarantine := m :: s.quarantine,
                  quarantine_size := s.quarantine_size + c.allocated_size,
                  malloced := l } := by
  refine ⟨?_, hq.dom_end, hq.size_pos, hq.disj, ?_, ?_, hq.flmem, hq.aligned,
    hq.page_al⟩
  · show s.quarantine_size + c.allocated_size =
      ((m :: s.quarantine).map (chunkSizeAt s)).sum
    rw [List.map_cons, List.sum_cons]
    have h1 : chunkSizeAt s m = c.allocated_size := by
      simp [chunkSizeAt, hst]
    rw [h1, hq.qsum_eq]
    unfold qsum
    omega
  · intro a ha
    rcases List.mem_cons.mp ha with rfl | ha
    · exact ⟨c, hst, hcs⟩
    · exact hq.qstate a ha
  · exact List.Nodup.cons hnm hq.qnodup

end AsanAlloc

namespace AsanAlloc

theorem TakeChunkBack_spec {s : AllocState} {m : Nat} {s' : AllocState}
    (hq : QInv s) (h : TakeChunkBack s m = .ok s') :
    QInv s' ∧ s'.quarantine_size ≤ s'.cap ∧ s'.cap = s.cap ∧
    s'.shadow = s.shadow ∧ s'.nextPage = s.nextPage ∧ s'.shim = s.shim := by
  unfold TakeChunkBack at h
  simp only [bind_ok, CHECK_ok, pure_ok, map_ok, beq_iff_eq, getChunk_ok,
    decide_eq_true_eq] at h
  obtain ⟨_, hm0, c, hc, _, hcs, _, hpow, _, hcappos, h⟩ := h
  have hnm : m ∉ s.quarantine := by
    intro hmem
    obtain ⟨c', hc', hcs'⟩ := hq.qstate m hmem
    rw [hc] at hc'
    obtain rfl : c = c' := by injection hc'
    rw [hcs] at hcs'
    simp [CHUNK_ALLOCATED, CHUNK_QUARANTINE] at hcs'
  have hqY : QInv (setChunk s m { c with chunk_state := CHUNK_QUARANTINE }) :=
    QInv_setChunk hq hc rfl (fun hmem => absurd hmem hnm)
  have hstY : (setChunk s m { c with chunk_state := CHUNK_QUARANTINE }).store m =
      some { c with chunk_state := CHUNK_QUARANTINE } := by
    simp [setChunk]
  have hqX := QInv_qpush (s.malloced.erase m) hqY hstY rfl hnm
  obtain ⟨a1, a2, a3, a4, a5, a6, a7⟩ := popLoop_spec _ _ _ hqX h
  exact ⟨a1, a2, a3, a6, a7, a5⟩

theorem TakeChunkBack_oversize {s : AllocState} {m : Nat} {c : Chunk}
    {s' : AllocState} (hq : QInv s) (hc : s.store m = some c)
    (hbig : s.cap < c.allocated_size) (h : TakeChunkBack s m = .ok s') :
    s'.store m = some { c with chunk_state := CHUNK_AVAILABLE } ∧
    m ∉ s'.quarantine ∧ m ∈ s'.freelist (ctz c.allocated_size) := by
  unfold TakeChunkBack at h
  simp only [bind_ok, CHECK_ok, pure_ok, map_ok, beq_iff_eq, getChunk_ok,
    decide_eq_true_eq] at h
  obtain ⟨_, hm0, c', hc', _, hcs, _, hpow, _, hcappos, h⟩ := h
  obtain rfl : c = c' := by
    rw [hc] at hc'
    injection hc'
  have hnm : m ∉ s.quarantine := by
    intro hmem
    obtain ⟨c'', hc'', hcs''⟩ := hq.qstate m hmem
    rw [hc] at hc''
    obtain rfl : c = c'' := by injection hc''
    rw [hcs] at hcs''
    simp [CHUNK_ALLOCATED, CHUNK_QUARANTINE] at hcs''
  have hqY : QInv (setChunk s m { c with chunk_state := CHUNK_QUARANTINE }) :=
    QInv_setChunk hq hc rfl (fun hmem => absurd hmem hnm)
  have hstY : (setChunk s m { c with chunk_state := CHUNK_QUARANTINE }).store m =
      some { c with chunk_state := CHUNK_QUARANTINE } := by
    simp [setChunk]
  have hqX := QInv_qpush (s.malloced.erase m) hqY hstY rfl hnm
  obtain ⟨b1, b2, b3⟩ := popLoop_oversize _ _ s' m
    ⟨CHUNK_QUARANTINE, c.allocated_size, c.used_size⟩ hqX
    (List.mem_cons_self m s.quarantine) (by simp [setChunk]) hbig h
  exact ⟨b1, b2, b3⟩

theorem MallocInfoDeallocate_spec {s : AllocState} {m : Nat} {s' : AllocState}
    (hq : QInv s) (h : MallocInfoDeallocate s m = .ok s') :
    QInv s' ∧ s'.quarantine_size ≤ s'.cap ∧ s'.cap = s.cap ∧
    s'.shadow = s.shadow ∧ s'.nextPage = s.nextPage ∧ s'.shim = s.shim := by
  unfold MallocInfoDeallocate at h
  simp only [bind_ok, CHECK_ok, pure_ok, map_ok, beq_iff_eq, getChunk_ok,
    decide_eq_true_eq] at h
  obtain ⟨_, hm0, c, hc, _, hcs, h⟩ := h
  exact TakeChunkBack_spec hq h

theorem Deallocate_some_spec {s : AllocState} {p : Nat} {s' : AllocState}
    (hq : QInv s) (h : Deallocate s (some p) = .ok s') :
    QInv s' ∧ s'.quarantine_size ≤ s'.cap ∧ s'.cap = s.cap ∧
    s'.nextPage = s.nextPage ∧ s'.shim = s.shim := by
  unfold Deallocate at h
  simp only [bind_ok, CHECK_ok, pure_ok, map_ok, beq_iff_eq, getChunk_ok] at h
  obtain ⟨c, hc, _, hcs, s₁, hps, h⟩ := h
  obtain ⟨_, _, hst, hfl, hqr, hqs, hml, hsh, hnp, hcap, _, _⟩ := PoisonShadow_spec hps
  have hq₁ : QInv s₁ := QInv_PoisonShadow hq hps
  obtain ⟨a1, a2, a3, a4, a5, a6⟩ := MallocInfoDeallocate_spec hq₁ h
  exact ⟨a1, a2, by rw [a3, hcap], by rw [a5, hnp], by rw [a6, hsh]⟩

theorem Deallocate_oversize {s : AllocState} {p : Nat} {c : Chunk}
    {s' : AllocState} (hq : QInv s) (hc : s.store (PtrToChunk s p) = some c)
    (hbig : s.cap < c.allocated_size) (h : Deallocate s (some p) = .ok s') :
    s'.store (PtrToChunk s p) = some { c with chunk_state := CHUNK_AVAILABLE } ∧
    PtrToChunk s p ∉ s'.quarantine ∧
    PtrToChunk s p ∈ s'.freelist (ctz c.allocated_size) := by
  unfold Deallocate at h
  simp only [bind_ok, CHECK_ok, pure_ok, map_ok, beq_iff_eq, getChunk_ok] at h
  obtain ⟨c', hc', _, hcs, s₁, hps, h⟩ := h
  obtain rfl : c = c' := by
    rw [hc] at hc'
    injection hc'
  obtain ⟨_, _, hst, hfl, hqr, hqs, hml, hsh, hnp, hcap, _, _⟩ := PoisonShadow_spec hps
  have hq₁ : QInv s₁ := QInv_PoisonShadow hq hps
  have hc₁ : s₁.store (PtrToChunk s p) = some c := by
    rw [hst]
    exact hc
  have hbig₁ : s₁.cap < c.allocated_size := by
    rw [hcap]
    exact hbig
  unfold MallocInfoDeallocate at h
  simp only [bind_ok, CHECK_ok, pure_ok, map_ok, beq_iff_eq, getChunk_ok,
    decide_eq_true_eq] at h
  obtain ⟨_, hm0, c₂, hc₂, _, hcs₂, h⟩ := h
  exact TakeChunkBack_oversize hq₁ hc₁ hbig₁ h

/- ### The public operations preserve the full invariant -/

theorem Log2_ok {x t : Nat} : Log2 x = .ok t ↔ IsPowerOfTwo x = true ∧ ctz x = t := by
  unfold Log2
  simp only [bind_ok, CHECK_ok, pure_ok]
  constructor
  · rintro ⟨_, hb, hc⟩
    exact ⟨hb, hc⟩
  · rintro ⟨hb, hc⟩
    exact ⟨(), hb, hc⟩

theorem Allocate_inv {s : AllocState} {alignment size : Nat} {r : Option Nat}
    {s' : AllocState} (hi : Inv s) (h : Allocate s alignment size = .ok (r, s')) :
    Inv s' ∧ s'.cap = s.cap := by
  obtain ⟨hq, hcap⟩ := hi
  unfold Allocate at h
  split at h
  · rw [pure_ok] at h
    obtain ⟨rfl, rfl⟩ : r = none ∧ s = s' := by
      injection h with h1 h2
      exact ⟨h1.symm, h2⟩
    exact ⟨⟨hq, hcap⟩, rfl⟩
  · simp only [bind_ok, CHECK_ok, pure_ok, map_ok, beq_iff_eq, getChunk_ok,
      decide_eq_true_eq] at h
    obtain ⟨_, hpow, v, hv, ⟨m, s₁⟩, hac, _, hm0, c, hc, _, hasz, _, hcs, h⟩ := h
    dsimp only at hm0 hc h
    obtain ⟨_, _, _, hvmod⟩ := ComputeSizeToAllocate_ok hv
    have hvpos : 0 < v := by
      have := (ComputeSizeToAllocate_ok hv).2.2.1
      rw [kMinAllocSize_eq] at this
      omega
    obtain ⟨hq₁, hqr₁, hqs₁, hcap₁, hsh₁, hmal, _⟩ :=
      AllocateChunk_spec hq hvmod hvpos hac
    have hq₂ : QInv (setChunk s₁ m { c with used_size := size }) := by
      refine QInv_setChunk hq₁ hc rfl ?_
      intro hmem
      exfalso
      obtain ⟨c', hc', hcs'⟩ := hq₁.qstate m hmem
      rw [hc] at hc'
      obtain rfl : c = c' := by injection hc'
      rw [hcs] at hcs'
      simp [CHUNK_ALLOCATED, CHUNK_QUARANTINE] at hcs'
    have htail : ∀ (sh : Nat → Option Nat) (addr : Nat) (s₂ : AllocState),
        PoisonShadow { setChunk s₁ m { c with used_size := size } with
          shim := sh } addr (RoundUptoRedzone size) 0 = .ok s₂ →
        Inv s₂ ∧ s₂.cap = s.cap := by
      intro sh addr s₂ hps
      have hqm : QInv ({ setChunk s₁ m { c with used_size := size } with
          shim := sh }) :=
        hq₂.transfer rfl rfl rfl (fun j a ha => ha) le_rfl hq₂.page_al
      have hq₃ : QInv s₂ := QInv_PoisonShadow hqm hps
      obtain ⟨_, _, _, _, _, hqs₂, _, _, _, hcap₂, _, _⟩ := PoisonShadow_spec hps
      refine ⟨⟨hq₃, ?_⟩, ?_⟩
      · rw [hqs₂, hcap₂]
        show s₁.quarantine_size ≤ s₁.cap
        rw [hqs₁, hcap₁]
        exact hcap
      · rw [hcap₂]
        exact hcap₁
    split at h
    · rw [bind_ok] at h
      obtain ⟨t, hlog, h⟩ := h
      rw [bind_ok] at h
      obtain ⟨_, hal, h⟩ := h
      rw [bind_ok] at h
      obtain ⟨y, hy, h⟩ := h
      rw [pure_ok] at hy
      subst hy
      rw [bind_ok] at h
      obtain ⟨s₃, hps, h⟩ := h
      rw [pure_ok] at h
      obtain ⟨h1, h2⟩ : some _ = r ∧ s₃ = s' := by
        refine ⟨?_, ?_⟩
        · injection h
        · injection h
      subst h2
      exact htail _ _ s₃ hps
    · rw [bind_ok] at h
      obtain ⟨y, hy, h⟩ := h
      rw [pure_ok] at hy
      subst hy
      rw [bind_ok] at h
      obtain ⟨s₃, hps, h⟩ := h
      rw [pure_ok] at h
      obtain ⟨h1, h2⟩ : some _ = r ∧ s₃ = s' := by
        refine ⟨?_, ?_⟩
        · injection h
        · injection h
      subst h2
      exact htail (setChunk s₁ m { c with used_size := size }).shim _ s₃ hps



end AsanAlloc

namespace AsanAlloc

theorem Deallocate_inv {s : AllocState} {p : Option Nat} {s' : AllocState}
    (hi : Inv s) (h : Deallocate s p = .ok s') : Inv s' ∧ s'.cap = s.cap := by
  cases p with
  | none =>
    have hs : s = s' := by
      unfold Deallocate at h
      rw [pure_ok] at h
      exact h
    subst hs
    exact ⟨hi, rfl⟩
  | some p =>
    obtain ⟨a1, a2, a3, _, _⟩ := Deallocate_some_spec hi.1 h
    exact ⟨⟨a1, a2⟩, a3⟩

theorem Reallocate_inv {s : AllocState} {p : Option Nat} {size : Nat}
    {r : Option Nat} {s' : AllocState} (hi : Inv s)
    (h : Reallocate s p size = .ok (r, s')) : Inv s' ∧ s'.cap = s.cap := by
  cases p with
  | none =>
    exact Allocate_inv hi h
  | some p =>
    unfold Reallocate at h
    split at h
    · next heq =>
      exact absurd heq (by simp)
    · next ptr heq =>
      obtain rfl : ptr = p := by
        injection heq with h1
        exact h1.symm
      split at h
      · rw [pure_ok] at h
        obtain ⟨rfl, rfl⟩ : r = none ∧ s = s' := by
          injection h with h1 h2
          exact ⟨h1.symm, h2⟩
        exact ⟨hi, rfl⟩
      · simp only [bind_ok, CHECK_ok, pure_ok, getChunk_ok, beq_iff_eq] at h
        obtain ⟨c, hgc, _, hck, ⟨q, s₁⟩, hal, h⟩ := h
        simp only [bind_ok, CHECK_ok, pure_ok] at h
        obtain ⟨_, hcopy, s₂, hde, hfin⟩ := h
        obtain ⟨rfl, rfl⟩ : r = q ∧ s₂ = s' := by
          injection hfin with h1 h2
          exact ⟨h1.symm, h2⟩
        obtain ⟨ha1, ha2⟩ := Allocate_inv hi hal
        obtain ⟨hd1, hd2⟩ := Deallocate_inv ha1 hde
        exact ⟨hd1, by rw [hd2, ha2]⟩

end AsanAlloc

namespace AsanAlloc

/- ### Claim theorems -/

/-- C1 counterexample: `reallocate(p, 0)` on a live 300000-byte allocation
returns null but performs NO deallocation — the state comes back entirely
unchanged, the chunk is still ALLOCATED, nothing was quarantined and the
payload shadow is still clean, contradicting the claimed equivalence with
`deallocate(p)`. -/
theorem C1_realloc_zero_counterexample :
    ∃ s₁, Allocate (initState 1000000) 0 300000 = .ok (some 1048640, s₁) ∧
      Reallocate s₁ (some 1048640) 0 = .ok (none, s₁) ∧
      (∃ c, s₁.store 1048576 = some c ∧ c.chunk_state = CHUNK_ALLOCATED) ∧
      s₁.quarantine = [] ∧ s₁.quarantine_size = 0 ∧
      s₁.shadow (1048640 >>> kShadowShift) = 0 := by
  refine ⟨_, rfl, rfl, ⟨⟨CHUNK_ALLOCATED, 524288, 300000⟩, rfl, rfl⟩, rfl, rfl, rfl⟩

/-- C1 amended: `Reallocate(p, 0)` with non-null `p` returns a null pointer
and deallocates nothing: the heap state is returned unchanged (the
`size == 0` branch of `Reallocate`, source lines 309-311, returns before
touching the old pointer). -/
theorem C1_realloc_zero_amended (s : AllocState) (p : Nat) :
    Reallocate s (some p) 0 = .ok (none, s) := rfl

/-- C3: after every public operation (allocate, deallocate, reallocate)
returns, the quarantine byte counter equals the sum of `allocated_size`
over the quarantine ring members, and stays at or below the configured
cap. -/
theorem C3_quarantine_counter {s : AllocState} (hi : Inv s) :
    (∀ alignment size r s', Allocate s alignment size = .ok (r, s') →
      s'.quarantine_size = qsum s' ∧ s'.quarantine_size ≤ s'.cap) ∧
    (∀ p s', Deallocate s p = .ok s' →
      s'.quarantine_size = qsum s' ∧ s'.quarantine_size ≤ s'.cap) ∧
    (∀ p size r s', Reallocate s p size = .ok (r, s') →
      s'.quarantine_size = qsum s' ∧ s'.quarantine_size ≤ s'.cap) := by
  refine ⟨?_, ?_, ?_⟩
  · intro alignment size r s' h
    obtain ⟨⟨hq, hc⟩, _⟩ := Allocate_inv hi h
    exact ⟨hq.qsum_eq, hc⟩
  · intro p s' h
    obtain ⟨⟨hq, hc⟩, _⟩ := Deallocate_inv hi h
    exact ⟨hq.qsum_eq, hc⟩
  · intro p size r s' h
    obtain ⟨⟨hq, hc⟩, _⟩ := Reallocate_inv hi h
    exact ⟨hq.qsum_eq, hc⟩

/-- Witness for C3 at a concrete run: one allocation followed by one
deallocation from a pristine heap with cap 1000000. -/
theorem C3_quarantine_counter_witness :
    ∃ r s₁, Allocate (initState 1000000) 0 300000 = .ok (r, s₁) ∧
      s₁.quarantine_size = qsum s₁ ∧ s₁.quarantine_size ≤ s₁.cap ∧
      ∃ s₂, Deallocate s₁ (some 1048640) = .ok s₂ ∧
        s₂.quarantine_size = qsum s₂ ∧ s₂.quarantine_size ≤ s₂.cap := by
  refine ⟨_, _, rfl, ?_⟩
  obtain ⟨h1, h2⟩ := (C3_quarantine_counter (Inv_init 1000000)).1 0 300000 _ _ rfl
  refine ⟨h1, h2, _, rfl, ?_⟩
  have hi₁ := (Allocate_inv (Inv_init 1000000) (rfl :
    Allocate (initState 1000000) 0 300000 = .ok _)).1
  exact (C3_quarantine_counter hi₁).2.1 (some 1048640) _ rfl

/-- C7: deallocating a non-null pointer whose resolved chunk is not in the
ALLOCATED state aborts the process (this is how a double free dies);
deallocating null is a no-op; allocating zero bytes returns null without
touching the state. -/
theorem C7_invalid_free_fatal :
    (∀ (s : AllocState) (p : Nat),
      (∀ c, s.store (PtrToChunk s p) = some c → c.chunk_state ≠ CHUNK_ALLOCATED) →
      Deallocate s (some p) = .error ()) ∧
    (∀ s : AllocState, Deallocate s none = .ok s) ∧
    (∀ (s : AllocState) (alignment : Nat), Allocate s alignment 0 = .ok (none, s)) := by
  refine ⟨?_, fun s => rfl, fun s alignment => rfl⟩
  intro s p hbad
  cases hres : Deallocate s (some p) with
  | error e =>
    cases e
    rfl
  | ok s' =>
    exfalso
    unfold Deallocate at hres
    simp only [bind_ok, CHECK_ok, pure_ok, getChunk_ok, beq_iff_eq] at hres
    obtain ⟨c, hc, _, hcs, _⟩ := hres
    exact hbad c hc hcs

/-- Witness for C7: a double free aborts — allocate, free once (chunk goes
to QUARANTINE under a large cap), free again and die; plus the two benign
edge cases. -/
theorem C7_invalid_free_fatal_witness :
    ∃ s₁ s₂, Allocate (initState 1000000) 0 300000 = .ok (some 1048640, s₁) ∧
      Deallocate s₁ (some 1048640) = .ok s₂ ∧
      Deallocate s₂ (some 1048640) = .error () ∧
      Deallocate s₂ none = .ok s₂ ∧
      Allocate s₂ 0 0 = .ok (none, s₂) := by
  refine ⟨_, _, rfl, rfl, ?_, ?_, ?_⟩
  · refine C7_invalid_free_fatal.1 _ 1048640 ?_
    intro c hc hcs
    have : c = ⟨CHUNK_QUARANTINE, 524288, 300000⟩ := by
      have hx : (some ⟨CHUNK_QUARANTINE, 524288, 300000⟩ : Option Chunk) = some c := hc
      injection hx with hx'
      exact hx'.symm
    rw [this] at hcs
    simp [CHUNK_QUARANTINE, CHUNK_ALLOCATED] at hcs
  · exact C7_invalid_free_fatal.2.1 _
  · exact C7_invalid_free_fatal.2.2 _ 0

/-- C8: with the quarantine cap configured as 0, deallocating any non-null
pointer aborts the process: even a perfectly valid ALLOCATED chunk dies on
`CHECK(__asan_flag_quarantine_size > 0)` in `TakeChunkBack` before being
quarantined. -/
theorem C8_zero_cap_fatal (s : AllocState) (p : Nat) (hcap : s.cap = 0) :
    Deallocate s (some p) = .error () := by
  cases hres : Deallocate s (some p) with
  | error e =>
    cases e
    rfl
  | ok s' =>
    exfalso
    unfold Deallocate at hres
    simp only [bind_ok, CHECK_ok, pure_ok, getChunk_ok, beq_iff_eq] at hres
    obtain ⟨c, hc, _, hcs, s₁, hps, hres⟩ := hres
    obtain ⟨_, _, _, _, _, _, _, _, _, hcap₁, _, _⟩ := PoisonShadow_spec hps
    unfold MallocInfoDeallocate at hres
    simp only [bind_ok, CHECK_ok, pure_ok, getChunk_ok, beq_iff_eq,
      decide_eq_true_eq] at hres
    obtain ⟨_, _, c₂, hc₂, _, hcs₂, hres⟩ := hres
    unfold TakeChunkBack at hres
    simp only [bind_ok, CHECK_ok, pure_ok, getChunk_ok, beq_iff_eq,
      decide_eq_true_eq] at hres
    obtain ⟨_, _, c₃, hc₃, _, hcs₃, _, _, _, hpos, _⟩ := hres
    rw [hcap₁, hcap] at hpos
    omega

/-- Witness for C8: on a pristine heap configured with cap 0, freeing the
non-null pointer 8 aborts. -/
theorem C8_zero_cap_fatal_witness :
    Deallocate (initState 0) (some 8) = .error () :=
  C8_zero_cap_fatal (initState 0) 8 rfl

/-- C4: quarantine eviction.  (a) When the counter is at or under the cap
(ties included) the trimming loop evicts nothing and returns the state
unchanged.  (b) One eviction step (`pop`) removes exactly the
least-recently-freed chunk from the ring tail, subtracts its
`allocated_size` from the counter, flips it to AVAILABLE and pushes it
onto the freelist of its size class.  (c) Freeing a chunk whose
`allocated_size` alone exceeds the cap leaves it AVAILABLE and out of the
quarantine within that same deallocate call. -/
theorem C4_quarantine_eviction :
    (∀ (fuel : Nat) (s : AllocState), s.quarantine_size ≤ s.cap →
      popLoop (fuel + 1) s = .ok s) ∧
    (∀ (s s' : AllocState), pop s = .ok s' →
      ∃ c, s.store (s.quarantine.getLastD 0) = some c ∧
        c.chunk_state = CHUNK_QUARANTINE ∧
        s'.quarantine = s.quarantine.dropLast ∧
        s'.quarantine_size = s.quarantine_size - c.allocated_size ∧
        s'.store (s.quarantine.getLastD 0) =
          some { c with chunk_state := CHUNK_AVAILABLE } ∧
        s'.freelist (ctz c.allocated_size) =
          s.quarantine.getLastD 0 :: s.freelist (ctz c.allocated_size)) ∧
    (∀ (s : AllocState) (p : Nat) (c : Chunk) (s' : AllocState), Inv s →
      s.store (PtrToChunk s p) = some c → s.cap < c.allocated_size →
      Deallocate s (some p) = .ok s' →
      s'.store (PtrToChunk s p) = some { c with chunk_state := CHUNK_AVAILABLE } ∧
      PtrToChunk s p ∉ s'.quarantine ∧
      PtrToChunk s p ∈ s'.freelist (ctz c.allocated_size)) := by
  refine ⟨?_, ?_, ?_⟩
  · intro fuel s hle
    rw [popLoop, if_neg (by omega)]
    rfl
  · intro s s' h
    obtain ⟨c, hne, _, hc, hcs, _, _, hqr, hqs, hst, hfl, _⟩ := pop_spec h
    refine ⟨c, hc, hcs, hqr, hqs, ?_, ?_⟩
    · rw [hst, if_pos rfl]
    · rw [hfl, if_pos rfl]
  · intro s p c s' hi hc hbig h
    exact Deallocate_oversize hi.1 hc hbig h

/-- Witness for C4: (a) the loop is a no-op on a pristine heap; (b) a
concrete `pop` of the single quarantined chunk behaves as stated; (c) under
cap 1000 the 524288-byte chunk freed is immediately evicted back to its
freelist as AVAILABLE. -/
theorem C4_quarantine_eviction_witness :
    popLoop 1 (initState 5) = .ok (initState 5) ∧
    (∃ s₁ s₂ s₃, Allocate (initState 1000000) 0 300000 = .ok (some 1048640, s₁) ∧
      Deallocate s₁ (some 1048640) = .ok s₂ ∧
      pop s₂ = .ok s₃ ∧
      (∃ c, s₂.store (s₂.quarantine.getLastD 0) = some c ∧
        c.chunk_state = CHUNK_QUARANTINE ∧
        s₃.quarantine = s₂.quarantine.dropLast ∧
        s₃.quarantine_size = s₂.quarantine_size - c.allocated_size ∧
        s₃.store (s₂.quarantine.getLastD 0) =
          some { c with chunk_state := CHUNK_AVAILABLE } ∧
        s₃.freelist (ctz c.allocated_size) =
          s₂.quarantine.getLastD 0 :: s₂.freelist (ctz c.allocated_size))) ∧
    (∃ s₁ s₂, Allocate (initState 1000) 0 300000 = .ok (some 1048640, s₁) ∧
      Deallocate s₁ (some 1048640) = .ok s₂ ∧
      s₂.store (PtrToChunk s₁ 1048640) =
        some ⟨CHUNK_AVAILABLE, 524288, 300000⟩ ∧
      PtrToChunk s₁ 1048640 ∉ s₂.quarantine ∧
      PtrToChunk s₁ 1048640 ∈ s₂.freelist (ctz 524288)) := by
  refine ⟨C4_quarantine_eviction.1 0 (initState 5) (by decide), ?_, ?_⟩
  · refine ⟨_, _, _, rfl, rfl, rfl, ?_⟩
    exact C4_quarantine_eviction.2.1 _ _ rfl
  · refine ⟨_, _, rfl, rfl, ?_⟩
    have hi₁ := (Allocate_inv (Inv_init 1000) (rfl :
      Allocate (initState 1000) 0 300000 = .ok _)).1
    exact C4_quarantine_eviction.2.2 _ 1048640 ⟨CHUNK_ALLOCATED, 524288, 300000⟩
      _ hi₁ rfl (by decide) rfl

end AsanAlloc

namespace AsanAlloc

theorem roundupShift_spec {x t : Nat} :
    (x >>> t) <<< t = x / 2 ^ t * 2 ^ t := by
  rw [Nat.shiftRight_eq_div_pow, Nat.shiftLeft_eq]

/-- Everything a successful `Allocate` guarantees: the returned pointer is
non-null, lands `kRedzone` past an ALLOCATED chunk of the computed padded
size (or further, shifted up for an over-sized alignment, in which case
the two-word memalign record sits at `q - kRedzone`), is aligned to
`max alignment kRedzone`, and the payload shadow is clean. -/
theorem Allocate_spec {s : AllocState} {alignment size : Nat} {p : Option Nat}
    {s' : AllocState} (hq : QInv s) (hsz : 0 < size) (ha64 : alignment < 2 ^ 64)
    (h : Allocate s alignment size = .ok (p, s')) :
    ∃ q m v, p = some q ∧ ComputeSizeToAllocate alignment size = .ok v ∧
      QInv s' ∧
      s'.store m = some ⟨CHUNK_ALLOCATED, v, size⟩ ∧
      m % kRedzone = 0 ∧
      RoundUptoRedzone size + kRedzone +
        (if kRedzone < alignment then alignment else 0) ≤ v ∧
      m + kRedzone ≤ q ∧
      q % max alignment kRedzone = 0 ∧
      q % 8 = 0 ∧ (q + RoundUptoRedzone size) % 8 = 0 ∧
      (∀ g, q >>> kShadowShift ≤ g →
        g < (q + RoundUptoRedzone size) >>> kShadowShift → s'.shadow g = 0) ∧
      (q = m + kRedzone ∨
        (kRedzone < alignment ∧ m + kRedzone < q ∧ q ≤ m + kRedzone + alignment ∧
         s'.shim (q - kRedzone) = some CHUNK_MEMALIGN ∧
         s'.shim (q - kRedzone + kWordSize) = some m)) := by
  unfold Allocate at h
  rw [if_neg (by omega : ¬size = 0)] at h
  simp only [bind_ok, CHECK_ok, pure_ok, map_ok, beq_iff_eq, getChunk_ok,
    decide_eq_true_eq] at h
  obtain ⟨_, hpow, v, hv, ⟨m, s₁⟩, hac, _, hm0, c, hc, _, hasz, _, hcs, h⟩ := h
  dsimp only at hm0 hc h
  obtain ⟨_, hneed, hmin, hvmod⟩ := ComputeSizeToAllocate_ok hv
  have hvpos : 0 < v := by
    rw [kMinAllocSize_eq] at hmin
    omega
  obtain ⟨hq₁, hqr₁, hqs₁, hcap₁, hsh₁, hmal, _⟩ :=
    AllocateChunk_spec hq hvmod hvpos hac
  have hcval : ({ c with used_size := size } : Chunk) = ⟨CHUNK_ALLOCATED, v, size⟩ := by
    rw [← hcs, ← hasz]
  have hq₂ : QInv (setChunk s₁ m { c with used_size := size }) := by
    refine QInv_setChunk hq₁ hc rfl ?_
    intro hmem
    exfalso
    obtain ⟨c', hc', hcs'⟩ := hq₁.qstate m hmem
    rw [hc] at hc'
    obtain rfl : c = c' := by injection hc'
    rw [hcs] at hcs'
    simp [CHUNK_ALLOCATED, CHUNK_QUARANTINE] at hcs'
  have hst₂ : (setChunk s₁ m { c with used_size := size }).store m =
      some ⟨CHUNK_ALLOCATED, v, size⟩ := by
    simp [setChunk, hcval]
  obtain ⟨hr1, hr2, hr3, hr4⟩ := RoundUptoRedzone_spec size
  split at h
  · -- over-aligned path with the memalign record
    rename_i hcond
    obtain ⟨hagt, hmis⟩ := hcond
    have hane : alignment ≠ 0 := by
      rw [kRedzone_eq] at hagt
      omega
    obtain ⟨tt, htlt, hteq⟩ := exists_pow_of_isPowerOfTwo ha64 hane hpow
    rw [bind_ok] at h
    obtain ⟨t, hlog, h⟩ := h
    rw [Log2_ok] at hlog
    obtain ⟨_, hctz⟩ := hlog
    obtain rfl : t = tt := by
      rw [← hctz, hteq, ctz_two_pow htlt]
    rw [bind_ok] at h
    obtain ⟨_, hal, h⟩ := h
    rw [bind_ok] at h
    obtain ⟨y, hy, h⟩ := h
    rw [pure_ok] at hy
    subst hy
    rw [bind_ok] at h
    obtain ⟨s₃, hps, h⟩ := h
    rw [pure_ok] at h
    injection h with hp hs'
    subst hs'
    obtain ⟨hps1, hps2, hpst, hpfl, hpqr, hpqs, hpml, hpsh, hpnp, hpcap, hsh0,
      hshold⟩ := PoisonShadow_spec hps
    set q := (m + kRedzone + alignment - 1) >>> t <<< t with hqd
    have hqdef : q = (m + kRedzone + alignment - 1) / 2 ^ t * 2 ^ t :=
      roundupShift_spec
    have hdm := Nat.div_add_mod (m + kRedzone + alignment - 1) alignment
    have hmlt : (m + kRedzone + alignment - 1) % alignment < alignment :=
      Nat.mod_lt _ (by omega)
    have hX : alignment * ((m + kRedzone + alignment - 1) / alignment) = q := by
      rw [hqdef, hteq]
      exact Nat.mul_comm _ _
    have hqa : q % alignment = 0 := by
      rw [← hX]
      exact Nat.mul_mod_right _ _
    have hbounds : m + kRedzone ≤ q ∧ q ≤ m + kRedzone + alignment - 1 := by
      omega
    have haddr_mod : (m + kRedzone) % alignment ≠ 0 := by
      rw [hteq] at hmis ⊢
      rw [← and_two_pow_sub_one]
      exact hmis
    have hqstrict : m + kRedzone < q := by
      rcases Nat.lt_or_ge (m + kRedzone) q with hlt | hge
      · exact hlt
      · exfalso
        have : q = m + kRedzone := by omega
        rw [this] at hqa
        exact haddr_mod hqa
    have hmax : max alignment kRedzone = alignment :=
      Nat.max_eq_left (by rw [kRedzone_eq] at hagt ⊢; omega)
    have hvlow : RoundUptoRedzone size + kRedzone + alignment ≤ v := by
      rw [if_pos hagt] at hneed
      exact hneed
    refine ⟨q, m, v, hp.symm, hv, ?_, ?_, hmal, by rw [if_pos hagt]; exact hvlow,
      hbounds.1, by rw [hmax]; exact hqa, hps1, hps2, ?_, .inr ⟨hagt,
      hqstrict, by omega, ?_, ?_⟩⟩
    · refine QInv_PoisonShadow ?_ hps
      exact hq₂.transfer rfl rfl rfl (fun j a ha => ha) le_rfl hq₂.page_al
    · rw [hpst]
      exact hst₂
    · intro g h1 h2
      exact hsh0 g h1 h2
    · rw [hpsh]
      show (if q - kRedzone = q - kRedzone then some CHUNK_MEMALIGN
        else if q - kRedzone = q - kRedzone + kWordSize then some m
        else (setChunk s₁ m { c with used_size := size }).shim (q - kRedzone)) =
        some CHUNK_MEMALIGN
      rw [if_pos rfl]
    · rw [hpsh]
      have hne8 : q - kRedzone + kWordSize ≠ q - kRedzone := by
        rw [kWordSize_eq, kRedzone_eq] at *
        omega
      show (if q - kRedzone + kWordSize = q - kRedzone then some CHUNK_MEMALIGN
        else if q - kRedzone + kWordSize = q - kRedzone + kWordSize then some m
        else (setChunk s₁ m { c with used_size := size }).shim
          (q - kRedzone + kWordSize)) = some m
      rw [if_neg hne8, if_pos rfl]
  · -- pointer already adequately aligned: q = m + kRedzone
    rename_i hcond
    rw [bind_ok] at h
    obtain ⟨y, hy, h⟩ := h
    rw [pure_ok] at hy
    subst hy
    rw [bind_ok] at h
    obtain ⟨s₃, hps, h⟩ := h
    rw [pure_ok] at h
    injection h with hp hs'
    subst hs'
    obtain ⟨hps1, hps2, hpst, hpfl, hpqr, hpqs, hpml, hpsh, hpnp, hpcap, hsh0,
      hshold⟩ := PoisonShadow_spec hps
    have hqmax : (m + kRedzone) % max alignment kRedzone = 0 := by
      by_cases hagt : kRedzone < alignment
      · have hmis : (m + kRedzone) &&& (alignment - 1) = 0 := by
          by_contra hne
          exact hcond ⟨hagt, hne⟩
        have hane : alignment ≠ 0 := by
          rw [kRedzone_eq] at hagt
          omega
        obtain ⟨tt, htlt, hteq⟩ := exists_pow_of_isPowerOfTwo ha64 hane hpow
        rw [hteq] at hmis
        rw [and_two_pow_sub_one] at hmis
        rw [Nat.max_eq_left (by rw [kRedzone_eq] at hagt ⊢; omega), hteq]
        exact hmis
      · rw [Nat.max_eq_right (by omega)]
        rw [kRedzone_eq] at *
        omega
    refine ⟨m + kRedzone, m, v, hp.symm, hv, ?_, ?_, hmal, hneed, le_rfl, hqmax,
      hps1, hps2, ?_, .inl rfl⟩
    · refine QInv_PoisonShadow ?_ hps
      exact hq₂.transfer rfl rfl rfl (fun j a ha => ha) le_rfl hq₂.page_al
    · rw [hpst]
      exact hst₂
    · intro g h1 h2
      exact hsh0 g h1 h2

end AsanAlloc

namespace AsanAlloc

theorem shiftRight_shadow_eq (x : Nat) : x >>> kShadowShift = x / 8 := by
  rw [Nat.shiftRight_eq_div_pow]
  rfl

/-- C5: a returning `allocate(a, n)` with `n > 0` hands back a non-null
pointer `p` with `p % max a kRedzone = 0` and a clean (zero) shadow byte
for every byte of `[p, p + n)`. -/
theorem C5_alloc_aligned_clean {s : AllocState} {a n : Nat} {p : Option Nat}
    {s' : AllocState} (hi : Inv s) (hn : 0 < n) (ha : a < 2 ^ 64)
    (h : Allocate s a n = .ok (p, s')) :
    ∃ q, p = some q ∧ q % max a kRedzone = 0 ∧
      ∀ b, q ≤ b → b < q + n → s'.shadow (b >>> kShadowShift) = 0 := by
  obtain ⟨q, m, v, hp, hv, hQ, hst, hm64, hvlow, hmq, hqmax, h8a, h8b, hsh,
    hcase⟩ := Allocate_spec hi.1 hn ha h
  obtain ⟨hr1, hr2, hr3, hr4⟩ := RoundUptoRedzone_spec n
  refine ⟨q, hp, hqmax, ?_⟩
  intro b hb1 hb2
  have hble : b < q + RoundUptoRedzone n := by omega
  refine hsh (b >>> kShadowShift) ?_ ?_
  · rw [shiftRight_shadow_eq, shiftRight_shadow_eq]
    exact Nat.div_le_div_right hb1
  · rw [shiftRight_shadow_eq, shiftRight_shadow_eq]
    omega

/-- C5 witness: the over-aligned request `allocate(4096, 300000)` from the
initial state returns `1052672`, a multiple of `max 4096 kRedzone`, with a
clean payload shadow. -/
theorem C5_alloc_aligned_clean_witness :
    Inv (initState 1000000) ∧ 0 < 300000 ∧ 4096 < 2 ^ 64 ∧
    ∃ s', Allocate (initState 1000000) 4096 300000 = .ok (some 1052672, s') ∧
      ∃ q, (some 1052672 : Option Nat) = some q ∧ q % max 4096 kRedzone = 0 ∧
        ∀ b, q ≤ b → b < q + 300000 → s'.shadow (b >>> kShadowShift) = 0 :=
  ⟨Inv_init 1000000, by decide, by decide, _, rfl,
    C5_alloc_aligned_clean (Inv_init 1000000) (by decide) (by decide) rfl⟩

/-- C2 counterexample: on the over-aligned allocation
`allocate(4096, 300000)` returning `p = 1052672`, the MEMALIGN record is
written at `p - kRedzone` (= `p` minus EIGHT words), NOT "two words before
`p`": the word two-words-before `p` reads 0, and a resolver that follows
the spec text (`PtrToChunk_specModel`) resolves the wrong chunk base,
while the code resolver (`PtrToChunk`) finds the true base 1048576. -/
theorem C2_memalign_record_counterexample :
    ∃ s₁, Allocate (initState 1000000) 4096 300000 = .ok (some 1052672, s₁) ∧
      PtrToChunk s₁ 1052672 = 1048576 ∧
      (∃ c, s₁.store 1048576 = some c ∧ c.chunk_state = CHUNK_ALLOCATED) ∧
      readWord s₁ (1052672 - kRedzone) = CHUNK_MEMALIGN ∧
      readWord s₁ (1052672 - kRedzone + kWordSize) = 1048576 ∧
      readWord s₁ (1052672 - 2 * kWordSize) ≠ CHUNK_MEMALIGN ∧
      PtrToChunk_specModel s₁ 1052672 ≠ 1048576 :=
  ⟨_, rfl, rfl, ⟨⟨CHUNK_ALLOCATED, 524288, 300000⟩, rfl, rfl⟩, rfl, rfl,
    by decide, by decide⟩

/-- C2 amended: the resolver reads the word at `p - kRedzone`; if it is the
MEMALIGN tag, the following word holds the chunk base, else the base is
`p - kRedzone` itself — and any pointer returned by `allocate` resolves to
its owning ALLOCATED chunk. -/
theorem C2_memalign_record_amended {s : AllocState} {a n p : Nat}
    {s' : AllocState} (hq : QInv s) (hn : 0 < n) (ha : a < 2 ^ 64)
    (h : Allocate s a n = .ok (some p, s')) :
    ∃ m v, s'.store m = some ⟨CHUNK_ALLOCATED, v, n⟩ ∧
      PtrToChunk s' p = m ∧
      ((m = p - kRedzone ∧ readWord s' (p - kRedzone) ≠ CHUNK_MEMALIGN) ∨
       (readWord s' (p - kRedzone) = CHUNK_MEMALIGN ∧
        readWord s' (p - kRedzone + kWordSize) = m)) := by
  obtain ⟨q, m, v, hp, hv, hQ, hst, hm64, hvlow, hmq, hqmax, h8a, h8b, hsh,
    hcase⟩ := Allocate_spec hq hn ha h
  obtain rfl : p = q := by
    injection hp
  obtain ⟨hr1, hr2, hr3, hr4⟩ := RoundUptoRedzone_spec n
  have hk : kRedzone = 64 := kRedzone_eq
  have hkw : kWordSize = 8 := kWordSize_eq
  rcases hcase with heq | ⟨hagt, hlt, hub, hsh1, hsh2⟩
  · have hm : m = p - kRedzone := by omega
    have hrw : readWord s' (p - kRedzone) = CHUNK_ALLOCATED := by
      rw [← hm]
      unfold readWord
      rw [hst]
    refine ⟨m, v, hst, ?_, .inl ⟨hm, ?_⟩⟩
    · show (if readWord s' (p - kRedzone) == CHUNK_MEMALIGN
        then readWord s' (p - kRedzone + kWordSize) else p - kRedzone) = m
      rw [hrw, if_neg (by decide)]
      exact hm.symm
    · rw [hrw]
      decide
  · have hvlow' : RoundUptoRedzone n + kRedzone + a ≤ v := by
      rw [if_pos hagt] at hvlow
      exact hvlow
    have hR64 : kRedzone ≤ RoundUptoRedzone n := hr4 hn
    have hstw : s'.store (p - kRedzone) = none := by
      cases hcw : s'.store (p - kRedzone) with
      | none => rfl
      | some cw =>
        exfalso
        have hd := hQ.disj m (p - kRedzone) _ _ hst hcw (by omega)
        have hd2 : m + v ≤ p - kRedzone := hd
        omega
    have hstw8 : s'.store (p - kRedzone + kWordSize) = none := by
      cases hcw : s'.store (p - kRedzone + kWordSize) with
      | none => rfl
      | some cw =>
        exfalso
        have hd := hQ.disj m (p - kRedzone + kWordSize) _ _ hst hcw (by omega)
        have hd2 : m + v ≤ p - kRedzone + kWordSize := hd
        omega
    have hrw : readWord s' (p - kRedzone) = CHUNK_MEMALIGN := by
      unfold readWord
      rw [hstw, hsh1]
      rfl
    have hrw8 : readWord s' (p - kRedzone + kWordSize) = m := by
      unfold readWord
      rw [hstw8, hsh2]
      rfl
    refine ⟨m, v, hst, ?_, .inr ⟨hrw, hrw8⟩⟩
    show (if readWord s' (p - kRedzone) == CHUNK_MEMALIGN
      then readWord s' (p - kRedzone + kWordSize) else p - kRedzone) = m
    rw [hrw, if_pos (by decide)]
    exact hrw8

/-- C2 amended witness: the concrete over-aligned allocation resolves via
the MEMALIGN record at `p - kRedzone` to its owning chunk. -/
theorem C2_memalign_record_amended_witness :
    QInv (initState 1000000) ∧ 0 < 300000 ∧ 4096 < 2 ^ 64 ∧
    ∃ s', Allocate (initState 1000000) 4096 300000 = .ok (some 1052672, s') ∧
      ∃ m v, s'.store m = some ⟨CHUNK_ALLOCATED, v, 300000⟩ ∧
        PtrToChunk s' 1052672 = m ∧
        ((m = 1052672 - kRedzone ∧
          readWord s' (1052672 - kRedzone) ≠ CHUNK_MEMALIGN) ∨
         (readWord s' (1052672 - kRedzone) = CHUNK_MEMALIGN ∧
          readWord s' (1052672 - kRedzone + kWordSize) = m)) :=
  ⟨QInv_init 1000000, by decide, by decide, _, rfl,
    @C2_memalign_record_amended (initState 1000000) 4096 300000 1052672 _
      (QInv_init 1000000) (by decide) (by decide) rfl⟩

/-- C6: the chunk size drawn for `(alignment, size)` is the least power of
two at least `needed` (`needed = RoundUptoRedzone size + kRedzone`, plus
`alignment` when `alignment > kRedzone`), never below `kMinAllocSize`, and
the chunk `allocate` actually stores records exactly this size. -/
theorem C6_padded_size {alignment size : Nat} (h0 : 0 < size)
    (hs : size < 2 ^ 61) (hpa : IsPowerOfTwo alignment = true)
    (ha : alignment < 2 ^ 61) :
    ∃ v, ComputeSizeToAllocate alignment size = .ok v ∧
      IsPowerOfTwo v = true ∧
      RoundUptoRedzone size + kRedzone +
        (if kRedzone < alignment then alignment else 0) ≤ v ∧
      v < 2 * (RoundUptoRedzone size + kRedzone +
        (if kRedzone < alignment then alignment else 0)) ∧
      kMinAllocSize ≤ v ∧
      ∀ s p s', QInv s → Allocate s alignment size = .ok (p, s') →
        ∃ q m, p = some q ∧
          s'.store m = some ⟨CHUNK_ALLOCATED, v, size⟩ := by
  obtain ⟨v, hv, hpw, hlow, hup, hmin, hmod⟩ :=
    ComputeSizeToAllocate_spec h0 hs hpa ha
  refine ⟨v, hv, hpw, hlow, hup, hmin, ?_⟩
  intro s p s' hqs hall
  obtain ⟨q, m, v', hp, hv', _, hst, _⟩ :=
    Allocate_spec hqs h0 (lt_trans ha (by norm_num : (2:Nat) ^ 61 < 2 ^ 64))
      hall
  rw [hv] at hv'
  obtain rfl : v = v' := by
    injection hv'
  exact ⟨q, m, hp, hst⟩

/-- C6 witness: for `(0, 300000)` the computed size is a power of two in
the stated window, at least `kMinAllocSize`, and a concrete allocation
from the initial state stores a chunk of exactly that size. -/
theorem C6_padded_size_witness :
    (0 < 300000 ∧ 300000 < 2 ^ 61 ∧ IsPowerOfTwo 0 = true ∧ 0 < 2 ^ 61) ∧
    ∃ v, ComputeSizeToAllocate 0 300000 = .ok v ∧
      IsPowerOfTwo v = true ∧
      RoundUptoRedzone 300000 + kRedzone +
        (if kRedzone < 0 then 0 else 0) ≤ v ∧
      v < 2 * (RoundUptoRedzone 300000 + kRedzone +
        (if kRedzone < 0 then 0 else 0)) ∧
      kMinAllocSize ≤ v ∧
      ∀ s p s', QInv s → Allocate s 0 300000 = .ok (p, s') →
        ∃ q m, p = some q ∧
          s'.store m = some ⟨CHUNK_ALLOCATED, v, 300000⟩ :=
  ⟨⟨by decide, by decide, by decide, by decide⟩,
    C6_padded_size (by decide) (by decide) (by decide) (by decide)⟩

/-- C9: `reallocate` of a non-null pointer to a positive size draws the
fresh block with alignment constraint 0 — the result always equals what
`Allocate s 0 size` returns — so an originally 4096-aligned pointer can
come back only kRedzone-aligned: concretely, reallocating the 4096-aligned
pointer 1052672 yields 1572928, which is not 4096-aligned. -/
theorem C9_realloc_alignment :
    (∀ s ptr size r s', 0 < size →
      Reallocate s (some ptr) size = .ok (r, s') →
      ∃ s₁, Allocate s 0 size = .ok (r, s₁)) ∧
    (∃ s₁ s₂,
      Allocate (initState 1000000) 4096 300000 = .ok (some 1052672, s₁) ∧
      1052672 % 4096 = 0 ∧
      Reallocate s₁ (some 1052672) 300000 = .ok (some 1572928, s₂) ∧
      1572928 % kRedzone = 0 ∧ 1572928 % 4096 ≠ 0) := by
  constructor
  · intro s ptr size r s' hsz h
    unfold Reallocate at h
    split at h
    · next heq =>
      exact absurd heq (by simp)
    · next ptr' heq =>
      obtain rfl : ptr' = ptr := by
        injection heq with h1
        exact h1.symm
      rw [if_neg (by omega : ¬size = 0)] at h
      simp only [bind_ok, CHECK_ok, pure_ok, getChunk_ok, beq_iff_eq] at h
      obtain ⟨c, hgc, _, hck, ⟨q, s₁⟩, hal, h⟩ := h
      simp only [bind_ok, CHECK_ok, pure_ok] at h
      obtain ⟨_, hcopy, s₂, hde, hfin⟩ := h
      obtain rfl : q = r := by
        injection hfin
      exact ⟨s₁, hal⟩
  · refine ⟨_, _, rfl, by decide, rfl, by decide, by decide⟩

/-- C9 witness: the generic component applied to the concrete reallocation
of the 4096-aligned pointer. -/
theorem C9_realloc_alignment_witness :
    0 < 300000 ∧
    ∃ s₁ r s₂, Allocate (initState 1000000) 4096 300000 =
        .ok (some 1052672, s₁) ∧
      Reallocate s₁ (some 1052672) 300000 = .ok (r, s₂) ∧
      ∃ s₃, Allocate s₁ 0 300000 = .ok (r, s₃) :=
  ⟨by decide, _, _, _, rfl, rfl,
    C9_realloc_alignment.1 _ 1052672 300000 _ _ (by decide) rfl⟩

/-- C10: `__asan_calloc` reduces `nmemb * size` modulo `2 ^ 64` with no
overflow check: for `nmemb = 2^32` and `size = 2^32 + 1` the exact product
is at least `2^64`, the wrapped total is only `2^32`, and the returned
region's chunk records a used size of `2^32` — fewer bytes than the exact
product. -/
theorem C10_calloc_overflow :
    2 ^ 64 ≤ 2 ^ 32 * (2 ^ 32 + 1) ∧
    (2 ^ 32 * (2 ^ 32 + 1)) % 2 ^ 64 = 2 ^ 32 ∧
    ∃ s', asan_calloc (initState 100) (2 ^ 32) (2 ^ 32 + 1) =
        .ok (some 1048640, s') ∧
      s'.store 1048576 = some ⟨CHUNK_ALLOCATED, 2 ^ 33, 2 ^ 32⟩ ∧
      (2 ^ 32 : Nat) < 2 ^ 32 * (2 ^ 32 + 1) :=
  ⟨by norm_num, by norm_num, _, rfl, rfl, by norm_num⟩

end AsanAlloc
